import Mathlib

/-!
Shallow embedding of the Dolphin JIT block cache,
Source/Core/Core/PowerPC/JitCommon/JitCache.cpp.

Machine integers (u32) are modelled as Nat; each addition, subtraction or
multiplication that can wrap in the source carries an explicit reduction
modulo 2^32 (uadd / usub / umul).  The C++ containers are modelled as:
  - std::multimap<u32, JitBlock> block_map: a list of entries in key-bucketed
    insertion order (equal_range = filter by key, preserving order);
  - std::multimap<u32, JitBlock*> links_to: a list of (exitAddress, block id)
    pairs (equal_range = filter by key);
  - std::map<u32, std::set<JitBlock*>> block_range_map: a list of
    (bucket address, id set) pairs sorted by bucket address, id sets sorted;
  - ValidBlockBitSet valid_block: the list of set bit indices;
  - std::array<JitBlock*, N> fast_block_map: a list of optional block ids.
Blocks are identified by a numeric id (standing for the C++ node address);
the id-to-block store is the block_map itself, exactly as in the source,
where the multimap owns the JitBlock storage.

Constants and collaborator declarations that live in headers outside this
repository snapshot (JitCache.h, PowerPC.h, JitBase.h) are modelled from the
spec and marked as such in their doc comments.
-/

def u32size : Nat := 4294967296

def uadd (a b : Nat) : Nat := (a + b) % u32size

def usub (a b : Nat) : Nat := (a + u32size - b % u32size) % u32size

def umul (a b : Nat) : Nat := a * b % u32size

/-- Modelled from the spec: `MSR_MASK = 0x30` (§8); the constant
`JIT_CACHE_MSR_MASK` is declared in JitCache.h, which is not in the
snapshot. -/
def JIT_CACHE_MSR_MASK : Nat := 0x30

/-- Modelled from the spec: `BUCKET = 0x100` (§8); the constant
`BLOCK_RANGE_MAP_ELEMENTS` is declared in JitCache.h, which is not in the
snapshot. -/
def BLOCK_RANGE_MAP_ELEMENTS : Nat := 0x100

/-- Modelled from the spec: fast-map size = 4 (§8); declared in JitCache.h,
which is not in the snapshot. -/
def FAST_BLOCK_MAP_SIZE : Nat := 4

def FAST_BLOCK_MAP_MASK : Nat := FAST_BLOCK_MAP_SIZE - 1

/-- u32 value of `~(BLOCK_RANGE_MAP_ELEMENTS - 1)`, the bucket-alignment mask
used in FinalizeBlock and InvalidateICache. -/
def RANGE_MASK : Nat := u32size - BLOCK_RANGE_MAP_ELEMENTS

/-- Result of `PowerPC::JitCache_TranslateAddress` (a collaborator declared
outside the snapshot): a validity flag and a physical address. -/
structure TranslateResult where
  valid : Bool
  address : Nat
deriving DecidableEq

/-- One outgoing exit of a block (JitBlock::LinkData, declared in JitCache.h
outside the snapshot; fields modelled from the spec §3).  `patchTarget`
models the host jump written by the `WriteLinkBlock` collaborator: `some h`
when the jump points at host address `h` (the destination's checkedEntry),
`none` when it points at the generic dispatcher thunk. -/
structure JitBlockLinkData where
  exitAddress : Nat
  linkStatus : Bool
  patchTarget : Option Nat
deriving DecidableEq

/-- A compiled block (JitBlock, declared in JitCache.h outside the snapshot;
fields modelled from the spec §3 and from their uses in JitCache.cpp).
Host-code addresses (checkedEntry, normalEntry) are Nat. -/
structure JitBlock where
  effectiveAddress : Nat
  physicalAddress : Nat
  msrBits : Nat
  originalSize : Nat
  checkedEntry : Nat
  normalEntry : Nat
  codeSize : Nat
  linkData : List JitBlockLinkData
  fast_block_map_index : Nat
deriving DecidableEq

/-- JitBlock::Overlap (JitCache.cpp lines 39-46), verbatim:
`addr >= physicalAddress + originalSize` and
`physicalAddress >= addr + length` are the two early-false tests. -/
def JitBlock.Overlap (b : JitBlock) (addr length : Nat) : Bool :=
  if addr ≥ uadd b.physicalAddress b.originalSize then false
  else if b.physicalAddress ≥ uadd addr length then false
  else true

/-- One node of the block_map multimap: key (the physical address used at
emplace time), node identity, and the owned JitBlock. -/
structure BMEntry where
  key : Nat
  bid : Nat
  blk : JitBlock
deriving DecidableEq

/-- The mutable state of JitBaseBlockCache, plus the two recompiler hint sets
(m_jit.js.fifoWriteAddresses / pairedQuantizeAddresses) that InvalidateICache
and Clear are allowed to edit. -/
structure CacheState where
  block_map : List BMEntry
  nextId : Nat
  links_to : List (Nat × Nat)
  block_range_map : List (Nat × List Nat)
  valid_block : List Nat
  fast_block_map : List (Option Nat)
  fifoWriteAddresses : List Nat
  pairedQuantizeAddresses : List Nat
deriving DecidableEq

/-- Dereferencing a JitBlock* with identity `bid` (the multimap owns the
storage, so a block exists exactly while its node is in block_map). -/
def lookupBlock (s : CacheState) (bid : Nat) : Option JitBlock :=
  (s.block_map.find? (fun e => e.bid == bid)).map (fun e => e.blk)

/-- In-place mutation through a JitBlock* with identity `bid`. -/
def updateBlock (s : CacheState) (bid : Nat) (f : JitBlock → JitBlock) : CacheState :=
  { s with block_map := s.block_map.map (fun e => if e.bid == bid then { e with blk := f e.blk } else e) }

def registryIds (s : CacheState) : List Nat := s.block_map.map (fun e => e.bid)

def registryEntries (s : CacheState) : List (Nat × Nat) := s.block_map.map (fun e => (e.key, e.bid))

def fastGet (s : CacheState) (i : Nat) : Option Nat := s.fast_block_map.getD i none

def fastSet (s : CacheState) (i : Nat) (v : Option Nat) : CacheState :=
  { s with fast_block_map := s.fast_block_map.set i v }

def validTest (s : CacheState) (i : Nat) : Bool := s.valid_block.contains i

def validSet (s : CacheState) (i : Nat) : CacheState :=
  if s.valid_block.contains i then s else { s with valid_block := s.valid_block ++ [i] }

def validClear (s : CacheState) (i : Nat) : CacheState :=
  { s with valid_block := s.valid_block.filter (fun j => j != i) }

/-- `for (u32 addr = lo; addr <= hi; ++addr) valid_block.Set(addr)`
(zero iterations when hi < lo, as in the source). -/
def setValidRange (s : CacheState) (lo hi : Nat) : CacheState :=
  (List.range (hi + 1 - lo)).foldl (fun acc k => validSet acc (lo + k)) s

/-- std::set insertion (sets of block pointers are kept sorted by id, the
model's stand-in for the unspecified pointer order). -/
def setInsert : List Nat → Nat → List Nat
  | [], n => [n]
  | m :: rest, n =>
    if n < m then n :: m :: rest
    else if n == m then m :: rest
    else m :: setInsert rest n

/-- `block_range_map[addr].insert(bid)`: operator[] default-constructs a
missing bucket, then the id is inserted into its set. -/
def rangeMapInsert : List (Nat × List Nat) → Nat → Nat → List (Nat × List Nat)
  | [], addr, bid => [(addr, [bid])]
  | (k, ids) :: rest, addr, bid =>
    if addr < k then (addr, [bid]) :: (k, ids) :: rest
    else if addr == k then (k, setInsert ids bid) :: rest
    else (k, ids) :: rangeMapInsert rest addr bid

/-- `block_range_map[addr].erase(bid)`: operator[] default-constructs a
missing bucket (leaving an empty one behind), then the id is erased. -/
def rangeMapEraseId : List (Nat × List Nat) → Nat → Nat → List (Nat × List Nat)
  | [], addr, _ => [(addr, [])]
  | (k, ids) :: rest, addr, bid =>
    if addr < k then (addr, []) :: (k, ids) :: rest
    else if addr == k then (k, ids.filter (fun j => j != bid)) :: rest
    else (k, ids) :: rangeMapEraseId rest addr bid

/-- `block_range_map.lower_bound(k)`: first bucket with key ≥ k
(the list is sorted by key). -/
def rangeFirstAtLeast (m : List (Nat × List Nat)) (k : Nat) : Option (Nat × List Nat) :=
  m.find? (fun p => decide (k ≤ p.1))

/-- Overwrite the id set of the bucket at `addr` (used to commit the
surviving ids after the in-bucket erase loop of InvalidateICache). -/
def rangeSetBucket : List (Nat × List Nat) → Nat → List Nat → List (Nat × List Nat)
  | [], _, _ => []
  | (k, ids) :: rest, addr, newIds =>
    if addr == k then (k, newIds) :: rest else (k, ids) :: rangeSetBucket rest addr newIds

/-- `block_range_map.erase(start)` for the bucket at `addr`. -/
def rangeEraseBucket (m : List (Nat × List Nat)) (addr : Nat) : List (Nat × List Nat) :=
  m.filter (fun p => p.1 != addr)

/-- JitBaseBlockCache::FastLookupIndexForAddress (lines 373-376). -/
def FastLookupIndexForAddress (address : Nat) : Nat :=
  (address >>> 2) &&& FAST_BLOCK_MAP_MASK

/-- Modelled from the spec: `UReg_MSR(msr).IR`, the guest MSR
instruction-translation enable bit (PowerPC.h is not in the snapshot;
IR is MSR bit 5, mask 0x20, and §4.5 reads it as "instruction-translation
is enabled in msr"). -/
def UReg_MSR_IR (msr : Nat) : Bool := msr.testBit 5

/-- An initial cache state (all containers empty, fast map all null). -/
def emptyState : CacheState :=
  { block_map := []
    nextId := 0
    links_to := []
    block_range_map := []
    valid_block := []
    fast_block_map := List.replicate FAST_BLOCK_MAP_SIZE none
    fifoWriteAddresses := []
    pairedQuantizeAddresses := [] }

section Operations

variable (translate : Nat → TranslateResult)
variable (Jit : CacheState → Nat → CacheState)

/-- JitBaseBlockCache::AllocateBlock (lines 111-121).  `msr` is the guest MSR
read by the source as the global `MSR`.  The translation's `valid` flag is
not consulted, exactly as in the source; `JitBlock()` value-initialisation
zeroes the scalar members.  Returns the new node's identity. -/
def AllocateBlock (s : CacheState) (msr em_address : Nat) : CacheState × Nat :=
  let physicalAddress := (translate em_address).address
  let bid := s.nextId
  let b : JitBlock :=
    { effectiveAddress := em_address
      physicalAddress := physicalAddress
      msrBits := msr &&& JIT_CACHE_MSR_MASK
      originalSize := 0
      checkedEntry := 0
      normalEntry := 0
      codeSize := 0
      linkData := []
      fast_block_map_index := 0 }
  ({ s with block_map := s.block_map ++ [{ key := physicalAddress, bid := bid, blk := b }]
            nextId := bid + 1 }, bid)

/-- The equal_range scan of GetBlockFromStartAddress (lines 165-173): first
block at the translated key whose effectiveAddress and masked msrBits
match. -/
def getBlockScan (s : CacheState) (translatedAddr addr msr : Nat) : Option (Nat × JitBlock) :=
  ((s.block_map.filter (fun e => e.key == translatedAddr)).find?
      (fun e => e.blk.effectiveAddress == addr &&
                e.blk.msrBits == (msr &&& JIT_CACHE_MSR_MASK))).map
    (fun e => (e.bid, e.blk))

/-- JitBaseBlockCache::GetBlockFromStartAddress (lines 152-174): translate
when `UReg_MSR(msr).IR` is set (returning null on failure), then scan the
equal_range of the registry at the translated key. -/
def GetBlockFromStartAddress (s : CacheState) (addr msr : Nat) : Option (Nat × JitBlock) :=
  let translatedAddr? : Option Nat :=
    if UReg_MSR_IR msr then
      let translated := translate addr
      if translated.valid then some translated.address else none
    else some addr
  match translatedAddr? with
  | none => none
  | some translatedAddr => getBlockScan s translatedAddr addr msr

/-- Body of the per-exit loop of LinkBlockExits (lines 280-291).  The call
`WriteLinkBlock(e, destinationBlock)` is a collaborator declared outside the
snapshot; modelled from the spec (§4.7, §6: patch the host jump at `e`'s site
to the destination's checked_entry). -/
def linkExitStep (s : CacheState) (msr : Nat) (e : JitBlockLinkData) : JitBlockLinkData :=
  if e.linkStatus then e
  else
    match GetBlockFromStartAddress translate s e.exitAddress msr with
    | none => e
    | some d => { e with linkStatus := true, patchTarget := some d.2.checkedEntry }

/-- JitBaseBlockCache::LinkBlockExits (lines 278-292). -/
def LinkBlockExits (s : CacheState) (bid : Nat) : CacheState :=
  match lookupBlock s bid with
  | none => s
  | some block =>
    updateBlock s bid (fun b => { b with linkData := b.linkData.map (linkExitStep translate s block.msrBits) })

/-- JitBaseBlockCache::LinkBlock (lines 294-305): link the block's own exits,
then LinkBlockExits every block registered in links_to at its effective
address with matching msrBits. -/
def LinkBlock (s : CacheState) (bid : Nat) : CacheState :=
  let s1 := LinkBlockExits translate s bid
  match lookupBlock s1 bid with
  | none => s1
  | some block =>
    (s1.links_to.filter (fun p => p.1 == block.effectiveAddress)).foldl
      (fun acc p =>
        match lookupBlock acc p.2 with
        | none => acc
        | some b2 =>
          if block.msrBits == b2.msrBits then LinkBlockExits translate acc p.2 else acc)
      s1

/-- JitBaseBlockCache::UnlinkBlock (lines 307-326).  The call
`WriteLinkBlock(e, nullptr)` is modelled from the spec as reverting the patch
site to the generic dispatcher thunk (`patchTarget := none`). -/
def UnlinkBlock (s : CacheState) (bid : Nat) : CacheState :=
  match lookupBlock s bid with
  | none => s
  | some block =>
    (s.links_to.filter (fun p => p.1 == block.effectiveAddress)).foldl
      (fun acc p =>
        match lookupBlock acc p.2 with
        | none => acc
        | some sourceBlock =>
          if sourceBlock.msrBits != block.msrBits then acc
          else
            updateBlock acc p.2 (fun b =>
              { b with linkData := b.linkData.map (fun e =>
                  if e.exitAddress == block.effectiveAddress then
                    { e with patchTarget := none, linkStatus := false }
                  else e) }))
      s

/-- The tail of DestroyBlock after the fast-map slot handling (lines
333-349): UnlinkBlock, then the links_to erase loop over the block's
linkData (reread through the reference after UnlinkBlock ran), then
WriteDestroyBlock — the base-class hook (lines 268-270) is a no-op, so it
leaves the state unchanged. -/
def destroyTail (s1 : CacheState) (bid : Nat) : CacheState :=
  let s2 := UnlinkBlock s1 bid
  match lookupBlock s2 bid with
  | none => s2
  | some block2 =>
    { s2 with links_to := s2.links_to.filter (fun p =>
        !(p.2 == bid && block2.linkData.any (fun e => e.exitAddress == p.1))) }

/-- JitBaseBlockCache::DestroyBlock (lines 328-350): clear the block's fast
map slot if it still points at it, then the UnlinkBlock / link-graph-erase
tail. -/
def DestroyBlock (s : CacheState) (bid : Nat) : CacheState :=
  match lookupBlock s bid with
  | none => s
  | some block =>
    destroyTail
      (if fastGet s block.fast_block_map_index == some bid then
        fastSet s block.fast_block_map_index none
      else s) bid

/-- The range-index insertion loop of FinalizeBlock (lines 135-137):
`for (addr = block_start & mask; addr <= (block_end & mask); addr += BLOCK_RANGE_MAP_ELEMENTS)`
(zero iterations when the aligned end is below the aligned start). -/
def rangeInsertSpan (s : CacheState) (blockStart blockEnd bid : Nat) : CacheState :=
  let startAligned := blockStart &&& RANGE_MASK
  let endAligned := blockEnd &&& RANGE_MASK
  if startAligned ≤ endAligned then
    let m :=
      (List.range ((endAligned - startAligned) / BLOCK_RANGE_MAP_ELEMENTS + 1)).foldl
        (fun m k => rangeMapInsert m (startAligned + k * BLOCK_RANGE_MAP_ELEMENTS) bid)
        s.block_range_map
    { s with block_range_map := m }
  else s

/-- JitBaseBlockCache::FinalizeBlock (lines 123-150): install in the fast
map, mark the valid bitmap over the physical span, insert into the range
index, and when `block_link` is set register the exits in links_to and run
LinkBlock.  The trailing `JitRegister::Register` call is an external
profiler notification with no cache-state effect. -/
def FinalizeBlock (s : CacheState) (bid : Nat) (block_link : Bool) : CacheState :=
  match lookupBlock s bid with
  | none => s
  | some block =>
    let index := FastLookupIndexForAddress block.effectiveAddress
    let s1 := fastSet s index (some bid)
    let s2 := updateBlock s1 bid (fun b => { b with fast_block_map_index := index })
    let blockStart := block.physicalAddress
    let blockEnd := uadd blockStart (umul (usub block.originalSize 1) 4)
    let s3 := setValidRange s2 (blockStart / 32) (blockEnd / 32)
    let s4 := rangeInsertSpan s3 blockStart blockEnd bid
    if block_link then
      let s5 := { s4 with links_to := s4.links_to ++ block.linkData.map (fun e => (e.exitAddress, bid)) }
      LinkBlock translate s5 bid
    else s4

/-- The "remove all other occupied slots in the other macro blocks" loop of
InvalidateICache (lines 224-228). -/
def eraseOtherBuckets (s : CacheState) (currentKey blockStart blockEnd bid : Nat) : CacheState :=
  let startAligned := blockStart &&& RANGE_MASK
  let endAligned := blockEnd &&& RANGE_MASK
  if startAligned ≤ endAligned then
    let m :=
      (List.range ((endAligned - startAligned) / BLOCK_RANGE_MAP_ELEMENTS + 1)).foldl
        (fun m k =>
          let addr := startAligned + k * BLOCK_RANGE_MAP_ELEMENTS
          if addr != currentKey then rangeMapEraseId m addr bid else m)
        s.block_range_map
    { s with block_range_map := m }
  else s

/-- `block_map.erase(key)`: std::multimap::erase by key removes every node
with that key. -/
def blockMapEraseKey (s : CacheState) (key : Nat) : CacheState :=
  { s with block_map := s.block_map.filter (fun e => e.key != key) }

/-- The inner while loop of InvalidateICache (lines 216-239): walk the ids of
one range-index bucket; overlapping blocks erase their other buckets, are
destroyed, and their registry key is erased; surviving ids are returned to be
written back into the bucket.  A dangling id (block freed by a previous
same-key erase, an out-of-model dereference in C++) is kept unexamined. -/
def processBucket (pAddr length bucketKey : Nat) : CacheState → List Nat → CacheState × List Nat
  | s, [] => (s, [])
  | s, bid :: rest =>
    match lookupBlock s bid with
    | none =>
      let r := processBucket pAddr length bucketKey s rest
      (r.1, bid :: r.2)
    | some block =>
      if block.Overlap pAddr length then
        let blockStart := block.physicalAddress
        let blockEnd := uadd blockStart (umul (usub block.originalSize 1) 4)
        let s1 := eraseOtherBuckets s bucketKey blockStart blockEnd bid
        let s2 := DestroyBlock s1 bid
        let s3 := blockMapEraseKey s2 block.physicalAddress
        processBucket pAddr length bucketKey s3 rest
      else
        let r := processBucket pAddr length bucketKey s rest
        (r.1, bid :: r.2)

/-- The outer while loop of InvalidateICache (lines 213-246): iterate the
range index from lower_bound(pAddr & mask) up to the end iterator captured as
lower_bound(pAddr + length) (`endKey`); after each bucket, drop it if
emptied.  `fuel` bounds the recursion; the walk's position strictly
increases, so `u32size` fuel is never exhausted for u32 keys. -/
def walkLoop (pAddr length : Nat) : Nat → CacheState → Nat → Option Nat → CacheState
  | 0, s, _, _ => s
  | fuel + 1, s, pos, endKey =>
    match rangeFirstAtLeast s.block_range_map pos with
    | none => s
    | some (k, ids) =>
      if (match endKey with | none => false | some ek => decide (ek ≤ k)) then s
      else
        let r := processBucket pAddr length k s ids
        let s2 :=
          if r.2.isEmpty then { r.1 with block_range_map := rangeEraseBucket r.1.block_range_map k }
          else { r.1 with block_range_map := rangeSetBucket r.1.block_range_map k r.2 }
        walkLoop pAddr length fuel s2 (k + 1) endKey

/-- The "destroy JIT blocks" walk of InvalidateICache (lines 207-246). -/
def invalidateWalk (s : CacheState) (pAddr length : Nat) : CacheState :=
  let endKey := (rangeFirstAtLeast s.block_range_map (pAddr + length)).map (fun p => p.1)
  walkLoop pAddr length u32size s (pAddr &&& RANGE_MASK) endKey

/-- The FIFO/paired-quantize hint erasure of InvalidateICache (lines
252-259): `for (u32 i = address; i < address + length; i += 4)` erase i from
both sets. -/
def eraseHints (s : CacheState) (address length : Nat) : CacheState :=
  (List.range ((length + 3) / 4)).foldl
    (fun acc k =>
      { acc with
        fifoWriteAddresses := acc.fifoWriteAddresses.filter (fun a => a != address + 4 * k)
        pairedQuantizeAddresses := acc.pairedQuantizeAddresses.filter (fun a => a != address + 4 * k) })
    s

/-- The body guarded by `if (destroy_block)` in InvalidateICache (lines
207-260): the range walk, then the hint erasure when not forced. -/
def invalidateWalkAndHints (s : CacheState) (address pAddr length : Nat) (forced : Bool) : CacheState :=
  let s1 := invalidateWalk s pAddr length
  if !forced then eraseHints s1 address length else s1

/-- JitBaseBlockCache::InvalidateICache (lines 189-261).  The
`destroy_block` flag of the source is rendered as direct branching: for a
32-byte flush with the valid bit clear nothing happens; with the bit set the
bit is cleared and the walk runs; for any other length the walk runs
unconditionally. -/
def InvalidateICache (s : CacheState) (address length : Nat) (forced : Bool) : CacheState :=
  let translated := translate address
  if !translated.valid then s
  else
    let pAddr := translated.address
    if length == 32 then
      if !(validTest s (pAddr / 32)) then s
      else invalidateWalkAndHints (validClear s (pAddr / 32)) address pAddr length forced
    else invalidateWalkAndHints s address pAddr length forced

/-- JitBaseBlockCache::MoveBlockIntoFastCache (lines 352-371). -/
def MoveBlockIntoFastCache (s : CacheState) (addr msr : Nat) : CacheState :=
  match GetBlockFromStartAddress translate s addr msr with
  | none => Jit s addr
  | some found =>
    let bid := found.1
    let block := found.2
    let s1 :=
      if fastGet s block.fast_block_map_index == some bid then
        fastSet s block.fast_block_map_index none
      else s
    let index := FastLookupIndexForAddress addr
    let s2 := fastSet s1 index (some bid)
    let s3 := updateBlock s2 bid (fun b => { b with fast_block_map_index := index })
    LinkBlock translate s3 bid

/-- The fast-map probe and revalidation of Dispatch (lines 178-184): the slot
at FastLookupIndexForAddress(PC), checked against PC and MSR & mask. -/
def dispatchHit (s : CacheState) (pc msr : Nat) : Option JitBlock :=
  match fastGet s (FastLookupIndexForAddress pc) with
  | none => none
  | some bid =>
    match lookupBlock s bid with
    | none => none
    | some block =>
      if block.effectiveAddress == pc && block.msrBits == (msr &&& JIT_CACHE_MSR_MASK) then some block
      else none

/-- JitBaseBlockCache::Dispatch (lines 176-187), with an explicit fuel for
the while loop and a counter of MoveBlockIntoFastCache invocations.  Returns
the final state, the number of misses taken, and the returned normalEntry;
`none` means the fuel ran out before the loop exited. -/
def Dispatch : Nat → CacheState → Nat → Nat → Nat → Option (CacheState × Nat × Nat)
  | 0, _, _, _, _ => none
  | fuel + 1, s, pc, msr, moves =>
    match dispatchHit s pc msr with
    | some block => some (s, moves, block.normalEntry)
    | none =>
      Dispatch fuel (MoveBlockIntoFastCache translate Jit s pc (msr &&& JIT_CACHE_MSR_MASK)) pc msr (moves + 1)

/-- JitBaseBlockCache::Clear (lines 69-87): clear the two recompiler hint
sets, DestroyBlock every registered block (registry membership is unchanged
by DestroyBlock, so the id snapshot equals the live iteration of the
source), then empty the registry, links_to and range index, clear the valid
bitmap and null the fast map. -/
def Clear (s : CacheState) : CacheState :=
  let s0 := { s with fifoWriteAddresses := [], pairedQuantizeAddresses := [] }
  let s1 := (s0.block_map.map (fun e => e.bid)).foldl (fun acc bid => DestroyBlock acc bid) s0
  { s1 with
    block_map := []
    links_to := []
    block_range_map := []
    valid_block := []
    fast_block_map := List.replicate FAST_BLOCK_MAP_SIZE none }

end Operations

/-! ### Projections used by the proofs

The linking and finalisation steps only ever rewrite a block's `linkData`
and `fast_block_map_index`.  The `skeleton` projection keeps everything a
registry lookup can depend on (key, identity, effectiveAddress,
physicalAddress, msrBits and the two entry pointers), so "skeleton
preserved" captures exactly that lookups are unaffected. -/

structure SkelEntry where
  key : Nat
  bid : Nat
  eff : Nat
  phys : Nat
  msr : Nat
  ce : Nat
  ne : Nat
deriving DecidableEq

def toSkel (e : BMEntry) : SkelEntry :=
  { key := e.key
    bid := e.bid
    eff := e.blk.effectiveAddress
    phys := e.blk.physicalAddress
    msr := e.blk.msrBits
    ce := e.blk.checkedEntry
    ne := e.blk.normalEntry }

def skeleton (s : CacheState) : List SkelEntry := s.block_map.map toSkel

def blockCore (b : JitBlock) : Nat × Nat × Nat × Nat × Nat :=
  (b.effectiveAddress, b.physicalAddress, b.msrBits, b.checkedEntry, b.normalEntry)

def skelCore (e : SkelEntry) : Nat × Nat × Nat × Nat × Nat := (e.eff, e.phys, e.msr, e.ce, e.ne)

def lookupCore (s : CacheState) (bid : Nat) : Option (Nat × Nat × Nat × Nat × Nat) :=
  (lookupBlock s bid).map blockCore

def skelLookup (l : List SkelEntry) (j : Nat) : Option SkelEntry := l.find? (fun e => e.bid == j)

/-- The skeleton-level rendering of getBlockScan. -/
def getBlockScanSkel (l : List SkelEntry) (translatedAddr addr msr : Nat) :
    Option (Nat × (Nat × Nat × Nat × Nat × Nat)) :=
  ((l.filter (fun e => e.key == translatedAddr)).find?
      (fun e => e.eff == addr && e.msr == (msr &&& JIT_CACHE_MSR_MASK))).map
    (fun e => (e.bid, skelCore e))

/-- The skeleton-level rendering of GetBlockFromStartAddress. -/
def gbsaSkel (translate : Nat → TranslateResult) (l : List SkelEntry) (addr msr : Nat) :
    Option (Nat × (Nat × Nat × Nat × Nat × Nat)) :=
  let translatedAddr? : Option Nat :=
    if UReg_MSR_IR msr then
      let translated := translate addr
      if translated.valid then some translated.address else none
    else some addr
  match translatedAddr? with
  | none => none
  | some translatedAddr => getBlockScanSkel l translatedAddr addr msr

/-! ### Concrete sample data for the witnesses and counterexamples -/

/-- An identity MMU: every effective address translates, to itself. -/
def idTranslate : Nat → TranslateResult := fun a => { valid := true, address := a }

/-- A failing MMU: no address translates. -/
def failTranslate : Nat → TranslateResult := fun a => { valid := false, address := a % 0x10000 }

def c1Block : JitBlock :=
  { effectiveAddress := 0x80001000, physicalAddress := 0x1000, msrBits := 0x30, originalSize := 4,
    checkedEntry := 0, normalEntry := 0, codeSize := 16, linkData := [], fast_block_map_index := 0 }

def c2A : JitBlock :=
  { effectiveAddress := 0x1000, physicalAddress := 0x1000, msrBits := 0x30, originalSize := 1,
    checkedEntry := 0x500, normalEntry := 0x504, codeSize := 4, linkData := [], fast_block_map_index := 0 }

def c2B : JitBlock :=
  { effectiveAddress := 0x2000, physicalAddress := 0x1000, msrBits := 0x30, originalSize := 8,
    checkedEntry := 0x600, normalEntry := 0x604, codeSize := 4, linkData := [], fast_block_map_index := 0 }

/-- Two blocks sharing registry key 0x1000 (legal per spec invariant 6), both
in range bucket 0x1000; only c2B's code-model span covers the invalidated
bytes. -/
def c2State : CacheState :=
  { emptyState with
      block_map := [{ key := 0x1000, bid := 0, blk := c2A }, { key := 0x1000, bid := 1, blk := c2B }]
      nextId := 2
      block_range_map := [(0x1000, [0, 1])]
      valid_block := [0x80] }

def c3Link : JitBlockLinkData := { exitAddress := 0x2000, linkStatus := false, patchTarget := none }

def c3Block : JitBlock :=
  { effectiveAddress := 0x1000, physicalAddress := 0x1000, msrBits := 0x30, originalSize := 1,
    checkedEntry := 0x500, normalEntry := 0x504, codeSize := 4, linkData := [c3Link],
    fast_block_map_index := 0 }

/-- A freshly allocated and populated block with one recorded exit, not yet
finalised. -/
def c3State : CacheState :=
  { emptyState with block_map := [{ key := 0x1000, bid := 0, blk := c3Block }], nextId := 1 }

def c6State : CacheState := { emptyState with valid_block := [2] }

def c7Block : JitBlock :=
  { effectiveAddress := 0x1000, physicalAddress := 0x1000, msrBits := 0x30, originalSize := 1,
    checkedEntry := 0x500, normalEntry := 0x504, codeSize := 4, linkData := [],
    fast_block_map_index := 0 }

/-- A state whose fast map already holds the block matching PC 0x1000 and
MSR 0x30 at slot FastLookupIndexForAddress(0x1000) = 0. -/
def c7State : CacheState :=
  { emptyState with
      block_map := [{ key := 0x1000, bid := 0, blk := c7Block }]
      nextId := 1
      fast_block_map := [some 0, none, none, none] }

/-- A recompiler stand-in whose published result is always c7State. -/
def c7Jit : CacheState → Nat → CacheState := fun _ _ => c7State

def c8e : JitBlockLinkData := { exitAddress := 0x2000, linkStatus := false, patchTarget := none }

def c8A : JitBlock :=
  { effectiveAddress := 0x1000, physicalAddress := 0x1000, msrBits := 0x30, originalSize := 1,
    checkedEntry := 0x500, normalEntry := 0x504, codeSize := 4, linkData := [c8e],
    fast_block_map_index := 0 }

def c8B : JitBlock :=
  { effectiveAddress := 0x2000, physicalAddress := 0x2000, msrBits := 0x30, originalSize := 1,
    checkedEntry := 0x600, normalEntry := 0x604, codeSize := 4, linkData := [],
    fast_block_map_index := 0 }

/-- Block A registered in the link graph with an unresolved exit to 0x2000;
block B (same msrBits, effectiveAddress 0x2000) allocated but not yet
finalised. -/
def c8State : CacheState :=
  { emptyState with
      block_map := [{ key := 0x1000, bid := 0, blk := c8A }, { key := 0x2000, bid := 1, blk := c8B }]
      nextId := 2
      links_to := [(0x2000, 0)] }

def c10Link : JitBlockLinkData := { exitAddress := 0x3000, linkStatus := false, patchTarget := none }

def c10Block : JitBlock :=
  { effectiveAddress := 0x1000, physicalAddress := 0x1000, msrBits := 0x30, originalSize := 1,
    checkedEntry := 0x500, normalEntry := 0x504, codeSize := 4, linkData := [c10Link],
    fast_block_map_index := 2 }

/-- A finalised block occupying fast-map slot 2, with one link-graph pair and
its valid-bitmap bit set. -/
def c10State : CacheState :=
  { emptyState with
      block_map := [{ key := 0x1000, bid := 0, blk := c10Block }]
      nextId := 1
      links_to := [(0x3000, 0)]
      block_range_map := [(0x1000, [0])]
      valid_block := [0x80]
      fast_block_map := [none, none, some 0, none] }

/-- Everything the linking passes leave untouched: every component except
the block payloads, together with the skeleton of the block_map. -/
def LinkFrame (s t : CacheState) : Prop :=
  t.links_to = s.links_to ∧ t.block_range_map = s.block_range_map ∧
  t.valid_block = s.valid_block ∧ t.fast_block_map = s.fast_block_map ∧
  t.fifoWriteAddresses = s.fifoWriteAddresses ∧
  t.pairedQuantizeAddresses = s.pairedQuantizeAddresses ∧
  t.nextId = s.nextId ∧ skeleton t = skeleton s

/-- The exit-address list of a block, the only part of its linkData that the
link-graph erasure of DestroyBlock reads. -/
def exitsOf (s : CacheState) (j : Nat) : Option (List Nat) :=
  (lookupBlock s j).map (fun b => b.linkData.map (fun e => e.exitAddress))

/-- The registry node that AllocateBlock appends. -/
def allocEntry (translate : Nat → TranslateResult) (s : CacheState) (msr em_address : Nat) :
    BMEntry :=
  { key := (translate em_address).address
    bid := s.nextId
    blk := { effectiveAddress := em_address
             physicalAddress := (translate em_address).address
             msrBits := msr &&& JIT_CACHE_MSR_MASK
             originalSize := 0
             checkedEntry := 0
             normalEntry := 0
             codeSize := 0
             linkData := []
             fast_block_map_index := 0 } }

/-- The patched form of a link-data entry after WriteLinkBlock resolved it
to a destination whose checkedEntry is ce. -/
def linkedE (e : JitBlockLinkData) (ce : Nat) : JitBlockLinkData :=
  { e with linkStatus := true, patchTarget := some ce }

/-- Proof invariant for the LinkBlock fold: the registry skeleton is fixed
at `skel`, and block `aid` is registered with msrBits `msrv` and its i-th
link-data entry either still unlinked (`e`) or already patched to `ce`. -/
def LinkInvGen (skel : List SkelEntry) (msrv aid i : Nat) (e : JitBlockLinkData) (ce : Nat)
    (s' : CacheState) : Prop :=
  skeleton s' = skel ∧ ∃ A', lookupBlock s' aid = some A' ∧ A'.msrBits = msrv ∧
    (A'.linkData.get? i = some e ∨ A'.linkData.get? i = some (linkedE e ce))

/-- Strengthened form of LinkInvGen: the entry is patched. -/
def LinkInvStr (skel : List SkelEntry) (msrv aid i : Nat) (e : JitBlockLinkData) (ce : Nat)
    (s' : CacheState) : Prop :=
  skeleton s' = skel ∧ ∃ A', lookupBlock s' aid = some A' ∧ A'.msrBits = msrv ∧
    A'.linkData.get? i = some (linkedE e ce)

/-! ### Generic helper lemmas -/

theorem foldl_preserveP {α β : Type} (P : α → Prop) (f : α → β → α) (l : List β) (init : α)
    (hstep : ∀ a b, P a → P (f a b)) (h0 : P init) : P (l.foldl f init) := by
  induction l generalizing init with
  | nil => exact h0
  | cons x xs ih => exact ih (f init x) (hstep init x h0)

theorem find?_bid_of_map (g : BMEntry → BMEntry) (hg : ∀ e, (g e).bid = e.bid)
    (l : List BMEntry) (j : Nat) :
    (l.map g).find? (fun e => e.bid == j) = (l.find? (fun e => e.bid == j)).map g := by
  rw [List.find?_map]
  have hpred : ((fun e => e.bid == j) ∘ g) = (fun e => e.bid == j) := by
    funext e
    simp [Function.comp, hg]
  rw [hpred]

theorem lookupBlock_updateBlock (s : CacheState) (k : Nat) (f : JitBlock → JitBlock) (j : Nat) :
    lookupBlock (updateBlock s k f) j =
      if j = k then (lookupBlock s j).map f else lookupBlock s j := by
  unfold lookupBlock updateBlock
  rw [find?_bid_of_map _ (fun e => by split <;> rfl)]
  rcases h : s.block_map.find? (fun e => e.bid == j) with _ | e
  · split <;> simp [h]
  · have hbid : e.bid = j := by simpa using List.find?_some h
    by_cases hjk : j = k
    · subst hjk
      simp [h, hbid]
    · simp [h, hbid, hjk]

theorem skeleton_updateBlock (s : CacheState) (k : Nat) (f : JitBlock → JitBlock)
    (hf : ∀ b : JitBlock, blockCore (f b) = blockCore b) :
    skeleton (updateBlock s k f) = skeleton s := by
  unfold skeleton updateBlock
  simp only [List.map_map]
  congr 1
  funext e
  show toSkel (if e.bid == k then { e with blk := f e.blk } else e) = toSkel e
  split
  · have h1 := congrArg (fun t : Nat × Nat × Nat × Nat × Nat => t.1) (hf e.blk)
    have h2 := congrArg (fun t : Nat × Nat × Nat × Nat × Nat => t.2.1) (hf e.blk)
    have h3 := congrArg (fun t : Nat × Nat × Nat × Nat × Nat => t.2.2.1) (hf e.blk)
    have h4 := congrArg (fun t : Nat × Nat × Nat × Nat × Nat => t.2.2.2.1) (hf e.blk)
    have h5 := congrArg (fun t : Nat × Nat × Nat × Nat × Nat => t.2.2.2.2) (hf e.blk)
    simp only [blockCore] at h1 h2 h3 h4 h5
    simp [toSkel, h1, h2, h3, h4, h5]
  · rfl

theorem lookupCore_eq_skel (s : CacheState) (j : Nat) :
    lookupCore s j = (skelLookup (skeleton s) j).map skelCore := by
  unfold lookupCore lookupBlock skelLookup skeleton
  rw [List.find?_map]
  have hpred : ((fun e : SkelEntry => e.bid == j) ∘ toSkel) = (fun e : BMEntry => e.bid == j) := by
    funext e
    rfl
  rw [hpred]
  rcases h : s.block_map.find? (fun e => e.bid == j) with _ | e <;>
    simp [h, toSkel, blockCore, skelCore]

theorem lookupCore_congr {s1 s2 : CacheState} (h : skeleton s1 = skeleton s2) (j : Nat) :
    lookupCore s1 j = lookupCore s2 j := by
  rw [lookupCore_eq_skel, lookupCore_eq_skel, h]

theorem getBlockScan_eq_skel (s : CacheState) (ta addr msr : Nat) :
    (getBlockScan s ta addr msr).map (fun p => (p.1, blockCore p.2)) =
      getBlockScanSkel (skeleton s) ta addr msr := by
  unfold getBlockScan getBlockScanSkel skeleton
  rw [List.filter_map]
  have hq : ((fun e : SkelEntry => e.key == ta) ∘ toSkel) = (fun e : BMEntry => e.key == ta) := by
    funext e
    rfl
  rw [hq, List.find?_map]
  have hp : ((fun e : SkelEntry => e.eff == addr && e.msr == (msr &&& JIT_CACHE_MSR_MASK)) ∘ toSkel) =
      (fun e : BMEntry => e.blk.effectiveAddress == addr &&
        e.blk.msrBits == (msr &&& JIT_CACHE_MSR_MASK)) := by
    funext e
    rfl
  rw [hp]
  rcases h : (s.block_map.filter (fun e => e.key == ta)).find?
      (fun e => e.blk.effectiveAddress == addr &&
        e.blk.msrBits == (msr &&& JIT_CACHE_MSR_MASK)) with _ | e <;>
    simp [h, toSkel, blockCore, skelCore]

theorem gbsa_eq_skel (translate : Nat → TranslateResult) (s : CacheState) (addr msr : Nat) :
    (GetBlockFromStartAddress translate s addr msr).map (fun p => (p.1, blockCore p.2)) =
      gbsaSkel translate (skeleton s) addr msr := by
  unfold GetBlockFromStartAddress gbsaSkel
  cases hIR : UReg_MSR_IR msr
  · simpa [hIR] using getBlockScan_eq_skel s addr addr msr
  · cases hv : (translate addr).valid
    · simp [hIR, hv]
    · simpa [hIR, hv] using getBlockScan_eq_skel s (translate addr).address addr msr

theorem gbsa_congr (translate : Nat → TranslateResult) {s1 s2 : CacheState}
    (h : skeleton s1 = skeleton s2) (addr msr : Nat) :
    (GetBlockFromStartAddress translate s1 addr msr).map (fun p => (p.1, blockCore p.2)) =
      (GetBlockFromStartAddress translate s2 addr msr).map (fun p => (p.1, blockCore p.2)) := by
  rw [gbsa_eq_skel, gbsa_eq_skel, h]

theorem LinkFrame.refl (s : CacheState) : LinkFrame s s :=
  ⟨rfl, rfl, rfl, rfl, rfl, rfl, rfl, rfl⟩

theorem LinkFrame.trans {s t u : CacheState} (h1 : LinkFrame s t) (h2 : LinkFrame t u) :
    LinkFrame s u := by
  obtain ⟨a1, a2, a3, a4, a5, a6, a7, a8⟩ := h1
  obtain ⟨b1, b2, b3, b4, b5, b6, b7, b8⟩ := h2
  exact ⟨b1.trans a1, b2.trans a2, b3.trans a3, b4.trans a4, b5.trans a5, b6.trans a6,
    b7.trans a7, b8.trans a8⟩

theorem linkFrame_updateBlock (s : CacheState) (k : Nat) (f : JitBlock → JitBlock)
    (hf : ∀ b : JitBlock, blockCore (f b) = blockCore b) :
    LinkFrame s (updateBlock s k f) :=
  ⟨rfl, rfl, rfl, rfl, rfl, rfl, rfl, skeleton_updateBlock s k f hf⟩

theorem linkFrame_linkBlockExits (translate : Nat → TranslateResult) (s : CacheState) (bid : Nat) :
    LinkFrame s (LinkBlockExits translate s bid) := by
  unfold LinkBlockExits
  cases h : lookupBlock s bid with
  | none => exact LinkFrame.refl s
  | some block => exact linkFrame_updateBlock s bid _ (fun b => rfl)

theorem linkFrame_linkBlock (translate : Nat → TranslateResult) (s : CacheState) (bid : Nat) :
    LinkFrame s (LinkBlock translate s bid) := by
  unfold LinkBlock
  have h1 := linkFrame_linkBlockExits translate s bid
  cases h : lookupBlock (LinkBlockExits translate s bid) bid with
  | none => simpa only [h] using h1
  | some block =>
    simp only [h]
    refine LinkFrame.trans h1 ?_
    apply foldl_preserveP (fun t => LinkFrame (LinkBlockExits translate s bid) t)
    · intro a p hp
      cases hl : lookupBlock a p.2 with
      | none => simpa only [hl] using hp
      | some b2 =>
        simp only [hl]
        cases hmsr : block.msrBits == b2.msrBits
        · simpa only [hmsr, Bool.false_eq_true, if_false] using hp
        · simp only [hmsr, if_true]
          exact LinkFrame.trans hp (linkFrame_linkBlockExits translate a p.2)
    · exact LinkFrame.refl _

theorem linkFrame_unlinkBlock (s : CacheState) (bid : Nat) :
    LinkFrame s (UnlinkBlock s bid) := by
  unfold UnlinkBlock
  cases h : lookupBlock s bid with
  | none => exact LinkFrame.refl s
  | some block =>
    simp only [h]
    apply foldl_preserveP (fun t => LinkFrame s t)
    · intro a p hp
      cases hl : lookupBlock a p.2 with
      | none => simpa only [hl] using hp
      | some sourceBlock =>
        simp only [hl]
        cases hmsr : sourceBlock.msrBits != block.msrBits
        · simp only [hmsr, Bool.false_eq_true, if_false]
          exact LinkFrame.trans hp (linkFrame_updateBlock a p.2 _ (fun b => rfl))
        · simpa only [hmsr, if_true] using hp
    · exact LinkFrame.refl s

theorem registryEntries_eq_skel (s : CacheState) :
    registryEntries s = (skeleton s).map (fun e => (e.key, e.bid)) := by
  unfold registryEntries skeleton
  rw [List.map_map]
  rfl

theorem registryIds_eq_skel (s : CacheState) :
    registryIds s = (skeleton s).map (fun e => e.bid) := by
  unfold registryIds skeleton
  rw [List.map_map]
  rfl

theorem exitsOf_updateBlock (s : CacheState) (k : Nat) (f : JitBlock → JitBlock) (j : Nat)
    (hf : ∀ b : JitBlock,
      (f b).linkData.map (fun e => e.exitAddress) = b.linkData.map (fun e => e.exitAddress)) :
    exitsOf (updateBlock s k f) j = exitsOf s j := by
  unfold exitsOf
  rw [lookupBlock_updateBlock]
  by_cases hjk : j = k
  · subst hjk
    cases hl : lookupBlock s j <;> simp [hl, hf]
  · simp [hjk]

theorem exitsOf_unlinkBlock (s : CacheState) (bid j : Nat) :
    exitsOf (UnlinkBlock s bid) j = exitsOf s j := by
  unfold UnlinkBlock
  cases h : lookupBlock s bid with
  | none => rfl
  | some block =>
    simp only [h]
    apply foldl_preserveP (fun t => exitsOf t j = exitsOf s j)
    · intro a p hp
      cases hl : lookupBlock a p.2 with
      | none => simpa only [hl] using hp
      | some sourceBlock =>
        simp only [hl]
        cases hmsr : sourceBlock.msrBits != block.msrBits
        · simp only [hmsr, Bool.false_eq_true, if_false]
          rw [exitsOf_updateBlock]
          · exact hp
          · intro b
            rw [List.map_map]
            congr 1
            funext e
            show (if e.exitAddress == block.effectiveAddress then
              { e with patchTarget := none, linkStatus := false } else e).exitAddress = e.exitAddress
            split <;> rfl
        · simpa only [hmsr, if_true] using hp
    · rfl

theorem fastGet_fastSet_ne (s : CacheState) (i : Nat) (v : Option Nat) (j : Nat) (h : i ≠ j) :
    fastGet (fastSet s i v) j = fastGet s j := by
  unfold fastGet fastSet
  simp [List.getElem?_set_ne h]

theorem fastGet_some_lt (s : CacheState) (i : Nat) (x : Nat) (h : fastGet s i = some x) :
    i < s.fast_block_map.length := by
  unfold fastGet at h
  by_contra hge
  push_neg at hge
  rw [List.getD_eq_getElem?_getD, List.getElem?_eq_none hge] at h
  simp at h

theorem fastGet_fastSet_self (s : CacheState) (i : Nat) (v : Option Nat)
    (hlt : i < s.fast_block_map.length) : fastGet (fastSet s i v) i = v := by
  unfold fastGet fastSet
  rw [List.getD_eq_getElem?_getD, List.getElem?_set_self hlt]
  rfl

theorem any_beq_of_map_eq {l1 l2 : List JitBlockLinkData} (x : Nat)
    (h : l1.map (fun e => e.exitAddress) = l2.map (fun e => e.exitAddress)) :
    l1.any (fun e => e.exitAddress == x) = l2.any (fun e => e.exitAddress == x) := by
  induction l1 generalizing l2 with
  | nil =>
    cases l2 with
    | nil => rfl
    | cons b t => simp at h
  | cons a t ih =>
    cases l2 with
    | nil => simp at h
    | cons b u =>
      simp only [List.map_cons, List.cons.injEq] at h
      simp only [List.any_cons, h.1, ih h.2]

theorem destroyTail_effects (s1 : CacheState) (bid : Nat) (block1 : JitBlock)
    (hb1 : lookupBlock s1 bid = some block1) :
    registryEntries (destroyTail s1 bid) = registryEntries s1 ∧
    skeleton (destroyTail s1 bid) = skeleton s1 ∧
    (destroyTail s1 bid).block_range_map = s1.block_range_map ∧
    (destroyTail s1 bid).valid_block = s1.valid_block ∧
    (destroyTail s1 bid).fifoWriteAddresses = s1.fifoWriteAddresses ∧
    (destroyTail s1 bid).pairedQuantizeAddresses = s1.pairedQuantizeAddresses ∧
    (destroyTail s1 bid).nextId = s1.nextId ∧
    (destroyTail s1 bid).fast_block_map = s1.fast_block_map ∧
    (destroyTail s1 bid).links_to = s1.links_to.filter (fun p =>
      !(p.2 == bid && block1.linkData.any (fun e => e.exitAddress == p.1))) := by
  unfold destroyTail
  have lf := linkFrame_unlinkBlock s1 bid
  obtain ⟨f1, f2, f3, f4, f5, f6, f7, f8⟩ := lf
  have hex : exitsOf (UnlinkBlock s1 bid) bid = exitsOf s1 bid := exitsOf_unlinkBlock s1 bid bid
  rw [exitsOf, exitsOf, hb1] at hex
  cases hl2 : lookupBlock (UnlinkBlock s1 bid) bid with
  | none =>
    rw [hl2] at hex
    simp at hex
  | some block2 =>
    rw [hl2] at hex
    have hexits : block2.linkData.map (fun e => e.exitAddress) =
        block1.linkData.map (fun e => e.exitAddress) := by
      simpa using hex
    simp only [hl2]
    have hre : registryEntries (UnlinkBlock s1 bid) = registryEntries s1 := by
      rw [registryEntries_eq_skel, registryEntries_eq_skel, f8]
    refine ⟨hre, f8, f2, f3, f5, f6, f7, f4, ?_⟩
    rw [f1]
    congr 1
    funext p
    rw [any_beq_of_map_eq p.1 hexits]

theorem destroyBlock_effects (s : CacheState) (bid : Nat) (block : JitBlock)
    (hb : lookupBlock s bid = some block) :
    registryEntries (DestroyBlock s bid) = registryEntries s ∧
    skeleton (DestroyBlock s bid) = skeleton s ∧
    (DestroyBlock s bid).block_range_map = s.block_range_map ∧
    (DestroyBlock s bid).valid_block = s.valid_block ∧
    (DestroyBlock s bid).fifoWriteAddresses = s.fifoWriteAddresses ∧
    (DestroyBlock s bid).pairedQuantizeAddresses = s.pairedQuantizeAddresses ∧
    (DestroyBlock s bid).nextId = s.nextId ∧
    (DestroyBlock s bid).fast_block_map =
      (if fastGet s block.fast_block_map_index == some bid then
        fastSet s block.fast_block_map_index none
      else s).fast_block_map ∧
    (DestroyBlock s bid).links_to = s.links_to.filter (fun p =>
      !(p.2 == bid && block.linkData.any (fun e => e.exitAddress == p.1))) := by
  unfold DestroyBlock
  simp only [hb]
  cases hfm : fastGet s block.fast_block_map_index == some bid with
  | false =>
    simp only [Bool.false_eq_true, if_false]
    exact destroyTail_effects s bid block hb
  | true =>
    simp only [if_true]
    have hb1 : lookupBlock (fastSet s block.fast_block_map_index none) bid = some block := hb
    have h := destroyTail_effects (fastSet s block.fast_block_map_index none) bid block hb1
    exact h

theorem validSet_links (s : CacheState) (i : Nat) : (validSet s i).links_to = s.links_to := by
  unfold validSet
  split <;> rfl

theorem setValidRange_links (s : CacheState) (lo hi : Nat) :
    (setValidRange s lo hi).links_to = s.links_to := by
  unfold setValidRange
  exact foldl_preserveP (fun t => t.links_to = s.links_to) (fun acc k => validSet acc (lo + k))
    (List.range (hi + 1 - lo)) s (fun a k h => (validSet_links a (lo + k)).trans h) rfl

theorem rangeInsertSpan_links (s : CacheState) (a b c : Nat) :
    (rangeInsertSpan s a b c).links_to = s.links_to := by
  simp only [rangeInsertSpan]
  split <;> rfl

theorem destroyBlock_fifo_pq (s : CacheState) (bid : Nat) :
    (DestroyBlock s bid).fifoWriteAddresses = s.fifoWriteAddresses ∧
    (DestroyBlock s bid).pairedQuantizeAddresses = s.pairedQuantizeAddresses := by
  unfold DestroyBlock
  cases hb : lookupBlock s bid with
  | none => exact ⟨rfl, rfl⟩
  | some block =>
    simp only [hb]
    cases hfm : fastGet s block.fast_block_map_index == some bid with
    | false =>
      simp only [Bool.false_eq_true, if_false]
      have h := destroyTail_effects s bid block hb
      exact ⟨h.2.2.2.2.1, h.2.2.2.2.2.1⟩
    | true =>
      simp only [if_true]
      have h := destroyTail_effects (fastSet s block.fast_block_map_index none) bid block hb
      exact ⟨h.2.2.2.2.1, h.2.2.2.2.2.1⟩

/-! ### The claims -/

/-- C1: the claim reads Overlap as covering the byte interval
`[p, p + 4·original_size)`; the code compares against
`physicalAddress + originalSize`, treating the instruction count as a byte
count (inconsistently with FinalizeBlock's own span arithmetic), so a query
inside the block's real byte span is reported as not overlapping.  At
block p=0x1000, original_size=4 and query [0x1008, 0x100C), Overlap returns
false although the claim's characterisation holds. -/
theorem c1_overlap_code_bug :
    JitBlock.Overlap c1Block 0x1008 4 = false ∧
    0x1008 < c1Block.physicalAddress + 4 * c1Block.originalSize ∧
    c1Block.physicalAddress < 0x1008 + 4 := by decide

/-- C2: the range walk erases overlapping blocks from the registry with
`block_map.erase(block->physicalAddress)`, a multimap erase by key, which
also deregisters every other block sharing the key.  In c2State, block 0
does not overlap [0x1004, 0x1008) (even by the code's own Overlap), block 1
does; after InvalidateICache both are gone from the registry while block 0
is still recorded in the range index — contradicting the claim that a
non-overlapping key-sharing block stays registered. -/
theorem c2_erase_by_key_code_bug :
    JitBlock.Overlap c2A 0x1004 4 = false ∧
    JitBlock.Overlap c2B 0x1004 4 = true ∧
    0 ∈ registryIds c2State ∧
    ¬ 0 ∈ registryIds (InvalidateICache idTranslate c2State 0x1004 4 false) ∧
    (InvalidateICache idTranslate c2State 0x1004 4 false).block_range_map = [(0x1000, [0])] := by
  decide

/-- C3 counterexample: publishing a block with link=false adds none of its
linkData to the link graph; c3Block is registered with one linkData entry
but the link graph stays empty, so the pair (0x2000, block) claimed by the
invariant is absent. -/
theorem c3_counterexample :
    0 ∈ registryIds (FinalizeBlock idTranslate c3State 0 false) ∧
    (lookupBlock (FinalizeBlock idTranslate c3State 0 false) 0).map (fun b => b.linkData) =
      some [c3Link] ∧
    (FinalizeBlock idTranslate c3State 0 false).links_to = [] := by decide

/-- C3 (amended): Finalize with link=true registers every linkData entry of
the published block in the link graph; blocks published with link=false
contribute no link-graph pairs, so the invariant holds only for blocks
published with link=true. -/
theorem c3_amended_link_graph (translate : Nat → TranslateResult) (s : CacheState)
    (bid : Nat) (block : JitBlock) (hb : lookupBlock s bid = some block) :
    ∀ e ∈ block.linkData, (e.exitAddress, bid) ∈ (FinalizeBlock translate s bid true).links_to := by
  intro e he
  unfold FinalizeBlock
  simp only [hb, if_true]
  rw [(linkFrame_linkBlock translate _ bid).1]
  exact List.mem_append.mpr (Or.inr (List.mem_map.mpr ⟨e, he, rfl⟩))

/-- C3 witness: the amended theorem applied to the concrete c3State. -/
theorem c3_witness :
    (0x2000, 0) ∈ (FinalizeBlock idTranslate c3State 0 true).links_to :=
  c3_amended_link_graph idTranslate c3State 0 c3Block (by decide) c3Link (by decide)

/-- C4 counterexample: AllocateBlock never consults the translation's valid
flag; with a failing MMU it still returns a block and mutates the
registry, contradicting "returns an absent result and performs no state
mutation". -/
theorem c4_counterexample :
    (failTranslate 0x80001000).valid = false ∧
    (AllocateBlock failTranslate emptyState 0 0x80001000).1 ≠ emptyState := by decide

/-- C4 (amended): AllocateBlock performs no validity check at all — for
every em_address, translating or not, it appends exactly one fresh node
keyed by the translation's address field and returns its identity; the
caller is responsible for having checked translatability. -/
theorem c4_allocate_unchecked (translate : Nat → TranslateResult) (s : CacheState)
    (msr em_address : Nat) :
    ((AllocateBlock translate s msr em_address).1).block_map =
      s.block_map ++ [allocEntry translate s msr em_address] ∧
    (AllocateBlock translate s msr em_address).2 ∈
      registryIds (AllocateBlock translate s msr em_address).1 := by
  constructor
  · rfl
  · unfold AllocateBlock registryIds
    simp

/-- C9: Clear leaves every cache structure empty for every prior state: the
registry, link graph and range index are emptied, the valid bitmap and fast
map are cleared, and the recompiler's two hint sets are emptied (before the
per-block DestroyBlock sweep, which never touches them). -/
theorem c9_clear_leaves_cache_empty (s : CacheState) :
    (Clear s).block_map = [] ∧
    (Clear s).links_to = [] ∧
    (Clear s).block_range_map = [] ∧
    (Clear s).valid_block = [] ∧
    (Clear s).fast_block_map = List.replicate FAST_BLOCK_MAP_SIZE none ∧
    (Clear s).fifoWriteAddresses = [] ∧
    (Clear s).pairedQuantizeAddresses = [] := by
  have h := foldl_preserveP
    (fun t => t.fifoWriteAddresses = [] ∧ t.pairedQuantizeAddresses = [])
    (fun acc bid => DestroyBlock acc bid)
    (({ s with fifoWriteAddresses := [], pairedQuantizeAddresses := [] } : CacheState).block_map.map
      (fun e => e.bid))
    { s with fifoWriteAddresses := [], pairedQuantizeAddresses := [] }
    (fun a b hp => ⟨(destroyBlock_fifo_pq a b).1.trans hp.1, (destroyBlock_fifo_pq a b).2.trans hp.2⟩)
    ⟨rfl, rfl⟩
  exact ⟨rfl, rfl, rfl, rfl, rfl, h.1, h.2⟩

theorem fastGet_mem (s : CacheState) (i : Nat) (x : Nat) (h : fastGet s i = some x) :
    some x ∈ s.fast_block_map := by
  unfold fastGet at h
  rw [List.getD_eq_getElem?_getD] at h
  cases hg : s.fast_block_map[i]? with
  | none =>
    rw [hg] at h
    simp at h
  | some v =>
    rw [hg] at h
    simp only [Option.getD_some] at h
    rw [h] at hg
    exact List.getElem?_mem hg

/-- C5: AllocateBlock inserts and returns a Block with effectiveAddress =
em_address, physicalAddress = the translation result's address, msrBits =
msr & JIT_CACHE_MSR_MASK, empty linkData, and fast_block_map_index = 0 — a
slot the fresh block does not occupy (given the well-formedness facts that
the fresh node id is neither registered nor installed in the fast map). -/
theorem c5_allocate_block_fields (translate : Nat → TranslateResult) (s : CacheState)
    (msr em_address : Nat)
    (hwf : ¬ s.nextId ∈ registryIds s)
    (hfresh : ¬ some s.nextId ∈ s.fast_block_map) :
    ∃ b : JitBlock,
      lookupBlock (AllocateBlock translate s msr em_address).1
          (AllocateBlock translate s msr em_address).2 = some b ∧
      b.effectiveAddress = em_address ∧
      b.physicalAddress = (translate em_address).address ∧
      b.msrBits = msr &&& JIT_CACHE_MSR_MASK ∧
      b.linkData = [] ∧
      (AllocateBlock translate s msr em_address).2 ∈
        registryIds (AllocateBlock translate s msr em_address).1 ∧
      fastGet (AllocateBlock translate s msr em_address).1 b.fast_block_map_index ≠
        some (AllocateBlock translate s msr em_address).2 := by
  refine ⟨(allocEntry translate s msr em_address).blk, ?_, rfl, rfl, rfl, rfl, ?_, ?_⟩
  · show lookupBlock (AllocateBlock translate s msr em_address).1 s.nextId = _
    unfold lookupBlock AllocateBlock
    rw [List.find?_append]
    have hnone : s.block_map.find? (fun e => e.bid == s.nextId) = none := by
      rw [List.find?_eq_none]
      intro e hmem
      simp only [beq_iff_eq]
      intro heq
      exact hwf (List.mem_map.mpr ⟨e, hmem, heq⟩)
    rw [hnone]
    simp [allocEntry]
  · unfold AllocateBlock registryIds
    simp
  · intro hcontra
    exact hfresh (fastGet_mem s 0 s.nextId hcontra)

/-- C5 witness: the theorem applied at the empty state with an identity
MMU. -/
theorem c5_witness :
    ¬ (0 : Nat) ∈ registryIds emptyState ∧
    ¬ some (0 : Nat) ∈ emptyState.fast_block_map ∧
    ∃ b : JitBlock,
      lookupBlock (AllocateBlock idTranslate emptyState 0x30 0x80001000).1
          (AllocateBlock idTranslate emptyState 0x30 0x80001000).2 = some b ∧
      b.effectiveAddress = 0x80001000 ∧
      b.physicalAddress = (idTranslate 0x80001000).address ∧
      b.msrBits = 0x30 &&& JIT_CACHE_MSR_MASK ∧
      b.linkData = [] ∧
      (AllocateBlock idTranslate emptyState 0x30 0x80001000).2 ∈
        registryIds (AllocateBlock idTranslate emptyState 0x30 0x80001000).1 ∧
      fastGet (AllocateBlock idTranslate emptyState 0x30 0x80001000).1 b.fast_block_map_index ≠
        some (AllocateBlock idTranslate emptyState 0x30 0x80001000).2 :=
  ⟨by decide, by decide,
    c5_allocate_block_fields idTranslate emptyState 0x30 0x80001000 (by decide) (by decide)⟩

/-- C6: for a 32-byte invalidation whose translation succeeds, a clear
valid-bitmap bit for pAddr/32 short-circuits the call with the whole state
unchanged (registry, range index, link graph, fast map, bitmap and both
recompiler hint sets, whatever `forced` is); a set bit is cleared — exactly
that bit — and the call proceeds to the range walk and hint erasure. -/
theorem c6_short_circuit (translate : Nat → TranslateResult) (s : CacheState)
    (address : Nat) (forced : Bool) (ht : (translate address).valid = true) :
    (validTest s ((translate address).address / 32) = false →
      InvalidateICache translate s address 32 forced = s) ∧
    (validTest s ((translate address).address / 32) = true →
      InvalidateICache translate s address 32 forced =
        invalidateWalkAndHints (validClear s ((translate address).address / 32))
          address (translate address).address 32 forced) := by
  constructor
  · intro h
    unfold InvalidateICache
    simp [ht, h]
  · intro h
    unfold InvalidateICache
    simp [ht, h]

/-- C6 witness: with bit 2 set, InvalidateICache(0x47, 32, false) clears it
and runs the walk on the rest. -/
theorem c6_witness :
    validTest c6State ((idTranslate 0x47).address / 32) = true ∧
    InvalidateICache idTranslate c6State 0x47 32 false =
      invalidateWalkAndHints (validClear c6State ((idTranslate 0x47).address / 32))
        0x47 (idTranslate 0x47).address 32 false :=
  ⟨by decide, (c6_short_circuit idTranslate c6State 0x47 false (by decide)).2 (by decide)⟩

/-- C10: DestroyBlock leaves registry membership, the range index, the valid
bitmap and the recompiler hint sets untouched; its effects are confined to
the block's own fast-map slot (cleared exactly when it still points at the
block), the inbound-link reverts of UnlinkBlock, and erasing the block's
pairs from the link graph; the block itself stays registered and its bitmap
bits stay set. -/
theorem c10_destroy_frame (s : CacheState) (bid : Nat) (block : JitBlock)
    (hb : lookupBlock s bid = some block) :
    registryEntries (DestroyBlock s bid) = registryEntries s ∧
    (DestroyBlock s bid).block_range_map = s.block_range_map ∧
    (DestroyBlock s bid).valid_block = s.valid_block ∧
    (DestroyBlock s bid).fifoWriteAddresses = s.fifoWriteAddresses ∧
    (DestroyBlock s bid).pairedQuantizeAddresses = s.pairedQuantizeAddresses ∧
    (∀ i, i ≠ block.fast_block_map_index → fastGet (DestroyBlock s bid) i = fastGet s i) ∧
    (fastGet s block.fast_block_map_index = some bid →
      fastGet (DestroyBlock s bid) block.fast_block_map_index = none) ∧
    (fastGet s block.fast_block_map_index ≠ some bid →
      fastGet (DestroyBlock s bid) block.fast_block_map_index =
        fastGet s block.fast_block_map_index) ∧
    (DestroyBlock s bid).links_to = s.links_to.filter (fun p =>
      !(p.2 == bid && block.linkData.any (fun e => e.exitAddress == p.1))) ∧
    (bid ∈ registryIds s → bid ∈ registryIds (DestroyBlock s bid)) ∧
    (∀ i ∈ s.valid_block, i ∈ (DestroyBlock s bid).valid_block) := by
  obtain ⟨h1, h2, h3, h4, h5, h6, h7, h8, h9⟩ := destroyBlock_effects s bid block hb
  have hfg : ∀ i, fastGet (DestroyBlock s bid) i =
      fastGet (if fastGet s block.fast_block_map_index == some bid then
        fastSet s block.fast_block_map_index none
      else s) i := fun i =>
    congrArg (fun l : List (Option Nat) => l.getD i none) h8
  refine ⟨h1, h3, h4, h5, h6, ?_, ?_, ?_, h9, ?_, ?_⟩
  · intro i hi
    rw [hfg i]
    cases hfm : fastGet s block.fast_block_map_index == some bid with
    | false => rw [if_neg (by simp)]
    | true =>
      rw [if_pos rfl]
      exact fastGet_fastSet_ne s block.fast_block_map_index none i (fun hh => hi hh.symm)
  · intro hpt
    have hcond : (fastGet s block.fast_block_map_index == some bid) = true := by
      simp [hpt]
    rw [hfg, if_pos hcond]
    exact fastGet_fastSet_self s block.fast_block_map_index none
      (fastGet_some_lt s block.fast_block_map_index bid hpt)
  · intro hne
    have hcond : ¬ ((fastGet s block.fast_block_map_index == some bid) = true) := by
      simpa using hne
    rw [hfg, if_neg hcond]
  · intro hin
    rw [registryIds_eq_skel, h2, ← registryIds_eq_skel]
    exact hin
  · intro i hin
    rw [h4]
    exact hin

/-- C10 witness: the theorem applied to the concrete one-block state. -/
theorem c10_witness :
    lookupBlock c10State 0 = some c10Block ∧
    registryEntries (DestroyBlock c10State 0) = registryEntries c10State ∧
    (DestroyBlock c10State 0).valid_block = c10State.valid_block :=
  ⟨by decide, (c10_destroy_frame c10State 0 c10Block (by decide)).1,
    (c10_destroy_frame c10State 0 c10Block (by decide)).2.2.1⟩

theorem mask_idem (msr : Nat) :
    (msr &&& JIT_CACHE_MSR_MASK) &&& JIT_CACHE_MSR_MASK = msr &&& JIT_CACHE_MSR_MASK := by
  rw [Nat.and_assoc, Nat.and_self]

theorem lookupCore_some (s : CacheState) (j : Nat) (c : Nat × Nat × Nat × Nat × Nat)
    (h : lookupCore s j = some c) : ∃ b, lookupBlock s j = some b ∧ blockCore b = c := by
  unfold lookupCore at h
  cases hl : lookupBlock s j with
  | none =>
    rw [hl] at h
    simp at h
  | some b =>
    rw [hl] at h
    simp only [Option.map_some'] at h
    exact ⟨b, rfl, by injection h⟩

theorem getBlockScan_found (s : CacheState) (ta addr msr bid : Nat) (b : JitBlock)
    (h : getBlockScan s ta addr msr = some (bid, b)) :
    b.effectiveAddress = addr ∧ b.msrBits = msr &&& JIT_CACHE_MSR_MASK := by
  unfold getBlockScan at h
  cases hf : (s.block_map.filter (fun e => e.key == ta)).find?
      (fun e => e.blk.effectiveAddress == addr &&
        e.blk.msrBits == (msr &&& JIT_CACHE_MSR_MASK)) with
  | none =>
    rw [hf] at h
    simp at h
  | some e =>
    rw [hf] at h
    have hp := List.find?_some hf
    simp only [Bool.and_eq_true, beq_iff_eq] at hp
    simp only [Option.map_some'] at h
    have hb : e.blk = b := by injection h with h1; exact congrArg Prod.snd h1
    rw [← hb]
    exact hp

theorem find?_bid_nodup (l : List BMEntry) (e : BMEntry) (hmem : e ∈ l)
    (hnd : (l.map (fun x => x.bid)).Nodup) : l.find? (fun x => x.bid == e.bid) = some e := by
  induction l with
  | nil => cases hmem
  | cons a t ih =>
    simp only [List.map_cons, List.nodup_cons] at hnd
    rcases List.mem_cons.mp hmem with rfl | hmem'
    · exact List.find?_cons_of_pos t (by simp)
    · have hne : ¬ (a.bid == e.bid) = true := by
        simp only [beq_iff_eq]
        intro h
        exact hnd.1 (h ▸ List.mem_map.mpr ⟨e, hmem', rfl⟩)
      rw [List.find?_cons_of_neg t hne]
      exact ih hmem' hnd.2

theorem getBlockScan_lookup (s : CacheState) (ta addr msr bid : Nat) (b : JitBlock)
    (hnd : (registryIds s).Nodup)
    (h : getBlockScan s ta addr msr = some (bid, b)) : lookupBlock s bid = some b := by
  unfold getBlockScan at h
  cases hf : (s.block_map.filter (fun e => e.key == ta)).find?
      (fun e => e.blk.effectiveAddress == addr &&
        e.blk.msrBits == (msr &&& JIT_CACHE_MSR_MASK)) with
  | none =>
    rw [hf] at h
    simp at h
  | some e =>
    rw [hf] at h
    simp only [Option.map_some'] at h
    have hbid : e.bid = bid := by injection h with h1; exact congrArg Prod.fst h1
    have hblk : e.blk = b := by injection h with h1; exact congrArg Prod.snd h1
    have hmem : e ∈ s.block_map :=
      List.mem_filter.mp (List.mem_of_find?_eq_some hf) |>.1
    unfold lookupBlock
    rw [← hbid, find?_bid_nodup s.block_map e hmem hnd, ← hblk]
    rfl

theorem gbsa_found_matches (translate : Nat → TranslateResult) (s : CacheState)
    (addr msr bid : Nat) (b : JitBlock)
    (h : GetBlockFromStartAddress translate s addr msr = some (bid, b)) :
    b.effectiveAddress = addr ∧ b.msrBits = msr &&& JIT_CACHE_MSR_MASK := by
  unfold GetBlockFromStartAddress at h
  cases hIR : UReg_MSR_IR msr
  · rw [hIR] at h
    simp only [Bool.false_eq_true, if_false] at h
    exact getBlockScan_found s addr addr msr bid b h
  · rw [hIR] at h
    simp only [if_true] at h
    cases hv : (translate addr).valid
    · rw [hv] at h
      simp at h
    · rw [hv] at h
      simp only [if_true] at h
      exact getBlockScan_found s (translate addr).address addr msr bid b h

theorem gbsa_lookup (translate : Nat → TranslateResult) (s : CacheState)
    (addr msr bid : Nat) (b : JitBlock) (hnd : (registryIds s).Nodup)
    (h : GetBlockFromStartAddress translate s addr msr = some (bid, b)) :
    lookupBlock s bid = some b := by
  unfold GetBlockFromStartAddress at h
  cases hIR : UReg_MSR_IR msr
  · rw [hIR] at h
    simp only [Bool.false_eq_true, if_false] at h
    exact getBlockScan_lookup s addr addr msr bid b hnd h
  · rw [hIR] at h
    simp only [if_true] at h
    cases hv : (translate addr).valid
    · rw [hv] at h
      simp at h
    · rw [hv] at h
      simp only [if_true] at h
      exact getBlockScan_lookup s (translate addr).address addr msr bid b hnd h

theorem dispatchHit_found (s : CacheState) (pc msr : Nat) (block : JitBlock)
    (h : dispatchHit s pc msr = some block) :
    block.effectiveAddress = pc ∧ block.msrBits = msr &&& JIT_CACHE_MSR_MASK := by
  unfold dispatchHit at h
  cases hfg : fastGet s (FastLookupIndexForAddress pc) with
  | none =>
    simp only [hfg] at h
    cases h
  | some bid =>
    simp only [hfg] at h
    cases hl : lookupBlock s bid with
    | none =>
      simp only [hl] at h
      cases h
    | some b =>
      simp only [hl] at h
      split at h
      · rename_i hc
        simp only [Bool.and_eq_true, beq_iff_eq] at hc
        have hb : b = block := by injection h
        rw [← hb]
        exact hc
      · cases h

theorem blockCore_eq_fields {b1 b2 : JitBlock} (h : blockCore b1 = blockCore b2) :
    b1.effectiveAddress = b2.effectiveAddress ∧ b1.msrBits = b2.msrBits ∧
    b1.normalEntry = b2.normalEntry ∧ b1.checkedEntry = b2.checkedEntry := by
  unfold blockCore at h
  refine ⟨congrArg (fun t : Nat × Nat × Nat × Nat × Nat => t.1) h,
    congrArg (fun t : Nat × Nat × Nat × Nat × Nat => t.2.2.1) h,
    congrArg (fun t : Nat × Nat × Nat × Nat × Nat => t.2.2.2.2) h,
    congrArg (fun t : Nat × Nat × Nat × Nat × Nat => t.2.2.2.1) h⟩

theorem moveBlock_installs (translate : Nat → TranslateResult)
    (Jit : CacheState → Nat → CacheState) (s : CacheState) (pc msr : Nat)
    (hlen : s.fast_block_map.length = FAST_BLOCK_MAP_SIZE)
    (hnd : (registryIds s).Nodup)
    (hjit : ∀ s' : CacheState, ∃ bid block,
      fastGet (Jit s' pc) (FastLookupIndexForAddress pc) = some bid ∧
      lookupBlock (Jit s' pc) bid = some block ∧
      block.effectiveAddress = pc ∧
      block.msrBits = msr &&& JIT_CACHE_MSR_MASK) :
    ∃ block' : JitBlock,
      dispatchHit (MoveBlockIntoFastCache translate Jit s pc (msr &&& JIT_CACHE_MSR_MASK)) pc msr =
        some block' ∧
      block'.effectiveAddress = pc ∧ block'.msrBits = msr &&& JIT_CACHE_MSR_MASK := by
  unfold MoveBlockIntoFastCache
  cases hg : GetBlockFromStartAddress translate s pc (msr &&& JIT_CACHE_MSR_MASK) with
  | none =>
    simp only [hg]
    obtain ⟨bid, block, h1, h2, h3, h4⟩ := hjit s
    refine ⟨block, ?_, h3, h4⟩
    unfold dispatchHit
    simp only [h1, h2, h3, h4]
    simp
  | some found =>
    simp only [hg]
    have hgp : GetBlockFromStartAddress translate s pc (msr &&& JIT_CACHE_MSR_MASK) =
        some (found.1, found.2) := hg
    obtain ⟨heff, hmsr0⟩ :=
      gbsa_found_matches translate s pc (msr &&& JIT_CACHE_MSR_MASK) found.1 found.2 hgp
    have hmsr : found.2.msrBits = msr &&& JIT_CACHE_MSR_MASK := by rw [hmsr0, mask_idem]
    have hlk : lookupBlock s found.1 = some found.2 :=
      gbsa_lookup translate s pc (msr &&& JIT_CACHE_MSR_MASK) found.1 found.2 hnd hgp
    set idx := FastLookupIndexForAddress pc with hidx
    set s1 := (if fastGet s found.2.fast_block_map_index == some found.1 then
        fastSet s found.2.fast_block_map_index none
      else s) with hs1
    set s2 := fastSet s1 idx (some found.1) with hs2
    set s3 := updateBlock s2 found.1
      (fun b => { b with fast_block_map_index := idx }) with hs3
    have hlen1 : s1.fast_block_map.length = FAST_BLOCK_MAP_SIZE := by
      rw [hs1]
      split
      · show (s.fast_block_map.set found.2.fast_block_map_index none).length = FAST_BLOCK_MAP_SIZE
        rw [List.length_set]
        exact hlen
      · exact hlen
    have hidxlt : idx < s1.fast_block_map.length := by
      rw [hlen1]
      exact Nat.lt_of_le_of_lt Nat.and_le_right (by decide)
    have hfg2 : fastGet s2 idx = some found.1 := fastGet_fastSet_self s1 idx (some found.1) hidxlt
    have hlk1 : lookupBlock s1 found.1 = some found.2 := by
      rw [hs1]
      split
      · exact hlk
      · exact hlk
    have hlk3 : lookupBlock s3 found.1 =
        some { found.2 with fast_block_map_index := idx } := by
      rw [hs3, lookupBlock_updateBlock]
      simp only [if_pos rfl]
      rw [show lookupBlock s2 found.1 = lookupBlock s1 found.1 from rfl, hlk1]
      rfl
    have lf := linkFrame_linkBlock translate s3 found.1
    have hfgr : fastGet (LinkBlock translate s3 found.1) idx = fastGet s3 idx :=
      congrArg (fun l : List (Option Nat) => l.getD idx none) lf.2.2.2.1
    have hfg3 : fastGet s3 idx = some found.1 := hfg2
    have hcore : lookupCore (LinkBlock translate s3 found.1) found.1 = lookupCore s3 found.1 :=
      lookupCore_congr lf.2.2.2.2.2.2.2 found.1
    have hcore3 : lookupCore s3 found.1 = some (blockCore found.2) := by
      unfold lookupCore
      rw [hlk3]
      rfl
    obtain ⟨block', hlkr, hbc⟩ := lookupCore_some (LinkBlock translate s3 found.1) found.1
      (blockCore found.2) (hcore.trans hcore3)
    obtain ⟨he, hm, _, _⟩ := blockCore_eq_fields hbc
    refine ⟨block', ?_, he.trans heff, hm.trans hmsr⟩
    unfold dispatchHit
    rw [hidx] at hfgr
    simp only [hfgr, hfg3, hlkr]
    simp [he.trans heff, hm.trans hmsr]

theorem dispatch_succ (translate : Nat → TranslateResult) (Jit : CacheState → Nat → CacheState)
    (fuel : Nat) (s : CacheState) (pc msr moves : Nat) :
    Dispatch translate Jit (fuel + 1) s pc msr moves =
      match dispatchHit s pc msr with
      | some block => some (s, moves, block.normalEntry)
      | none => Dispatch translate Jit fuel
          (MoveBlockIntoFastCache translate Jit s pc (msr &&& JIT_CACHE_MSR_MASK)) pc msr
          (moves + 1) := rfl

/-- C7: under the collaborator contract that Jit(pc) publishes a Block
matching (pc, MSR & MSR_MASK) into the registry and the fast map slot for
pc, Dispatch with fuel 2 terminates (returns some), invokes
MoveBlockIntoFastCache at most once, and yields the normalEntry of a Block
whose effectiveAddress is PC and whose msrBits is MSR & MSR_MASK.  The two
well-formedness facts (fast map of the declared size, node ids unique) hold
for every state the cache itself builds. -/
theorem c7_dispatch_terminates (translate : Nat → TranslateResult)
    (Jit : CacheState → Nat → CacheState) (s : CacheState) (pc msr : Nat)
    (hlen : s.fast_block_map.length = FAST_BLOCK_MAP_SIZE)
    (hnd : (registryIds s).Nodup)
    (hjit : ∀ s' : CacheState, ∃ bid block,
      fastGet (Jit s' pc) (FastLookupIndexForAddress pc) = some bid ∧
      lookupBlock (Jit s' pc) bid = some block ∧
      block.effectiveAddress = pc ∧
      block.msrBits = msr &&& JIT_CACHE_MSR_MASK) :
    ∃ s' moves entry, Dispatch translate Jit 2 s pc msr 0 = some (s', moves, entry) ∧
      moves ≤ 1 ∧
      ∃ block : JitBlock, block.effectiveAddress = pc ∧
        block.msrBits = msr &&& JIT_CACHE_MSR_MASK ∧ entry = block.normalEntry := by
  cases hd : dispatchHit s pc msr with
  | some block =>
    obtain ⟨heff, hmsr⟩ := dispatchHit_found s pc msr block hd
    have hstep := dispatch_succ translate Jit 1 s pc msr 0
    norm_num at hstep
    simp only [hd] at hstep
    exact ⟨s, 0, block.normalEntry, hstep, Nat.zero_le 1, block, heff, hmsr, rfl⟩
  | none =>
    obtain ⟨block', hd1, heff, hmsr⟩ := moveBlock_installs translate Jit s pc msr hlen hnd hjit
    have hstep := dispatch_succ translate Jit 1 s pc msr 0
    norm_num at hstep
    simp only [hd] at hstep
    have hstep2 := dispatch_succ translate Jit 0
      (MoveBlockIntoFastCache translate Jit s pc (msr &&& JIT_CACHE_MSR_MASK)) pc msr 1
    norm_num at hstep2
    simp only [hd1] at hstep2
    exact ⟨MoveBlockIntoFastCache translate Jit s pc (msr &&& JIT_CACHE_MSR_MASK), 1,
      block'.normalEntry, hstep.trans hstep2, Nat.le_refl 1, block', heff, hmsr, rfl⟩

/-- C7 witness: the theorem applied to the concrete one-block state whose
fast map already holds the matching block, with a constant recompiler. -/
theorem c7_witness :
    ∃ s' moves entry, Dispatch idTranslate c7Jit 2 c7State 0x1000 0x30 0 = some (s', moves, entry) ∧
      moves ≤ 1 ∧
      ∃ block : JitBlock, block.effectiveAddress = 0x1000 ∧
        block.msrBits = 0x30 &&& JIT_CACHE_MSR_MASK ∧ entry = block.normalEntry :=
  c7_dispatch_terminates idTranslate c7Jit c7State 0x1000 0x30 (by decide) (by decide)
    (fun s' => ⟨0, c7Block,
      (by decide : fastGet c7State (FastLookupIndexForAddress 0x1000) = some 0),
      (by decide : lookupBlock c7State 0 = some c7Block),
      by decide, by decide⟩)

theorem linkBlockExits_lookup_ne (translate : Nat → TranslateResult) (s : CacheState)
    (bid j : Nat) (hne : j ≠ bid) :
    lookupBlock (LinkBlockExits translate s bid) j = lookupBlock s j := by
  unfold LinkBlockExits
  cases h : lookupBlock s bid with
  | none => simp only [h]
  | some block =>
    simp only [h]
    rw [lookupBlock_updateBlock, if_neg hne]

theorem linkBlockExits_lookup_self (translate : Nat → TranslateResult) (s : CacheState)
    (bid : Nat) (block : JitBlock) (h : lookupBlock s bid = some block) :
    lookupBlock (LinkBlockExits translate s bid) bid =
      some { block with
        linkData := block.linkData.map (linkExitStep translate s block.msrBits) } := by
  unfold LinkBlockExits
  simp only [h]
  rw [lookupBlock_updateBlock, if_pos rfl, h]
  rfl

theorem gbsa_ce_of_skeleton_eq (translate : Nat → TranslateResult) {s s' : CacheState}
    (hsk : skeleton s' = skeleton s) (t msrv bid : Nat) (B : JitBlock)
    (hfind : GetBlockFromStartAddress translate s t msrv = some (bid, B)) :
    ∃ p : Nat × JitBlock, GetBlockFromStartAddress translate s' t msrv = some p ∧
      p.2.checkedEntry = B.checkedEntry := by
  have h := gbsa_congr translate hsk t msrv
  rw [hfind] at h
  cases hg : GetBlockFromStartAddress translate s' t msrv with
  | none =>
    rw [hg] at h
    simp at h
  | some p =>
    rw [hg] at h
    simp only [Option.map_some'] at h
    refine ⟨p, rfl, ?_⟩
    have hpc : blockCore p.2 = blockCore B := by
      have := congrArg (fun q : Nat × (Nat × Nat × Nat × Nat × Nat) => q.2) (Option.some.inj h)
      simpa using this
    exact (blockCore_eq_fields hpc).2.2.2

theorem linkExitStep_unlinked (translate : Nat → TranslateResult) (s' : CacheState)
    (msr : Nat) (e : JitBlockLinkData) (t ce : Nat)
    (hst : e.linkStatus = false) (hex : e.exitAddress = t)
    (p : Nat × JitBlock) (hp : GetBlockFromStartAddress translate s' t msr = some p)
    (hpce : p.2.checkedEntry = ce) :
    linkExitStep translate s' msr e = linkedE e ce := by
  unfold linkExitStep
  rw [hst]
  simp only [Bool.false_eq_true, if_false]
  rw [hex, hp]
  simp [linkedE, hpce, hex]

theorem linkExitStep_linked (translate : Nat → TranslateResult) (s' : CacheState)
    (msr : Nat) (e : JitBlockLinkData) (ce : Nat) :
    linkExitStep translate s' msr (linkedE e ce) = linkedE e ce := by
  simp [linkExitStep, linkedE]

theorem linkExits_invGen (translate : Nat → TranslateResult) (skel : List SkelEntry)
    (msrv aid i : Nat) (e : JitBlockLinkData) (ce t : Nat)
    (hst : e.linkStatus = false) (hex : e.exitAddress = t)
    (hgb : ∀ s' : CacheState, skeleton s' = skel →
      ∃ p : Nat × JitBlock, GetBlockFromStartAddress translate s' t msrv = some p ∧
        p.2.checkedEntry = ce)
    (j : Nat) {s' : CacheState} (h : LinkInvGen skel msrv aid i e ce s') :
    LinkInvGen skel msrv aid i e ce (LinkBlockExits translate s' j) := by
  obtain ⟨hsk, A', hA, hAm, hdisj⟩ := h
  have hsk' : skeleton (LinkBlockExits translate s' j) = skel :=
    ((linkFrame_linkBlockExits translate s' j).2.2.2.2.2.2.2).trans hsk
  by_cases hj : j = aid
  · subst hj
    obtain ⟨p, hp, hpce⟩ := hgb s' hsk
    have hp' : GetBlockFromStartAddress translate s' t A'.msrBits = some p := by
      rw [hAm]
      exact hp
    have hres := linkBlockExits_lookup_self translate s' j A' hA
    refine ⟨hsk', _, hres, hAm, ?_⟩
    rw [List.get?_map]
    rcases hdisj with hcase | hcase
    · rw [hcase]
      right
      rw [Option.map_some']
      rw [linkExitStep_unlinked translate s' A'.msrBits e t ce hst hex p hp' hpce]
    · rw [hcase]
      right
      rw [Option.map_some']
      rw [linkExitStep_linked]
  · have hlk := linkBlockExits_lookup_ne translate s' j aid (fun hh => hj hh.symm)
    exact ⟨hsk', A', hlk.trans hA, hAm, hdisj⟩

theorem linkExits_invStr (translate : Nat → TranslateResult) (skel : List SkelEntry)
    (msrv aid i : Nat) (e : JitBlockLinkData) (ce : Nat)
    (j : Nat) {s' : CacheState} (h : LinkInvStr skel msrv aid i e ce s') :
    LinkInvStr skel msrv aid i e ce (LinkBlockExits translate s' j) := by
  obtain ⟨hsk, A', hA, hAm, hlinked⟩ := h
  have hsk' : skeleton (LinkBlockExits translate s' j) = skel :=
    ((linkFrame_linkBlockExits translate s' j).2.2.2.2.2.2.2).trans hsk
  by_cases hj : j = aid
  · subst hj
    have hres := linkBlockExits_lookup_self translate s' j A' hA
    refine ⟨hsk', _, hres, hAm, ?_⟩
    rw [List.get?_map, hlinked, Option.map_some', linkExitStep_linked]
  · have hlk := linkBlockExits_lookup_ne translate s' j aid (fun hh => hj hh.symm)
    exact ⟨hsk', A', hlk.trans hA, hAm, hlinked⟩

theorem linkExits_toStr (translate : Nat → TranslateResult) (skel : List SkelEntry)
    (msrv aid i : Nat) (e : JitBlockLinkData) (ce t : Nat)
    (hst : e.linkStatus = false) (hex : e.exitAddress = t)
    (hgb : ∀ s' : CacheState, skeleton s' = skel →
      ∃ p : Nat × JitBlock, GetBlockFromStartAddress translate s' t msrv = some p ∧
        p.2.checkedEntry = ce)
    {s' : CacheState} (h : LinkInvGen skel msrv aid i e ce s') :
    LinkInvStr skel msrv aid i e ce (LinkBlockExits translate s' aid) := by
  obtain ⟨hsk, A', hA, hAm, hdisj⟩ := h
  have hsk' : skeleton (LinkBlockExits translate s' aid) = skel :=
    ((linkFrame_linkBlockExits translate s' aid).2.2.2.2.2.2.2).trans hsk
  obtain ⟨p, hp, hpce⟩ := hgb s' hsk
  have hp' : GetBlockFromStartAddress translate s' t A'.msrBits = some p := by
    rw [hAm]
    exact hp
  have hres := linkBlockExits_lookup_self translate s' aid A' hA
  refine ⟨hsk', _, hres, hAm, ?_⟩
  rw [List.get?_map]
  rcases hdisj with hcase | hcase
  · rw [hcase, Option.map_some',
      linkExitStep_unlinked translate s' A'.msrBits e t ce hst hex p hp' hpce]
  · rw [hcase, Option.map_some', linkExitStep_linked]

theorem linkFold_invGen (translate : Nat → TranslateResult) (skel : List SkelEntry)
    (msrv aid i : Nat) (e : JitBlockLinkData) (ce t : Nat)
    (hst : e.linkStatus = false) (hex : e.exitAddress = t)
    (hgb : ∀ s' : CacheState, skeleton s' = skel →
      ∃ p : Nat × JitBlock, GetBlockFromStartAddress translate s' t msrv = some p ∧
        p.2.checkedEntry = ce)
    (blk1 : JitBlock) (l : List (Nat × Nat)) :
    ∀ {s' : CacheState}, LinkInvGen skel msrv aid i e ce s' →
      LinkInvGen skel msrv aid i e ce
        (l.foldl (fun acc p =>
          match lookupBlock acc p.2 with
          | none => acc
          | some b2 =>
            if blk1.msrBits == b2.msrBits then LinkBlockExits translate acc p.2 else acc) s') := by
  induction l with
  | nil => intro s' h; exact h
  | cons p rest ih =>
    intro s' h
    rw [List.foldl_cons]
    apply ih
    cases hl : lookupBlock s' p.2 with
    | none => simpa only [hl] using h
    | some b2 =>
      simp only [hl]
      cases hm : blk1.msrBits == b2.msrBits with
      | false => simpa only [hm, Bool.false_eq_true, if_false] using h
      | true =>
        simp only [hm, if_true]
        exact linkExits_invGen translate skel msrv aid i e ce t hst hex hgb p.2 h

theorem linkFold_invStr (translate : Nat → TranslateResult) (skel : List SkelEntry)
    (msrv aid i : Nat) (e : JitBlockLinkData) (ce : Nat)
    (blk1 : JitBlock) (l : List (Nat × Nat)) :
    ∀ {s' : CacheState}, LinkInvStr skel msrv aid i e ce s' →
      LinkInvStr skel msrv aid i e ce
        (l.foldl (fun acc p =>
          match lookupBlock acc p.2 with
          | none => acc
          | some b2 =>
            if blk1.msrBits == b2.msrBits then LinkBlockExits translate acc p.2 else acc) s') := by
  induction l with
  | nil => intro s' h; exact h
  | cons p rest ih =>
    intro s' h
    rw [List.foldl_cons]
    apply ih
    cases hl : lookupBlock s' p.2 with
    | none => simpa only [hl] using h
    | some b2 =>
      simp only [hl]
      cases hm : blk1.msrBits == b2.msrBits with
      | false => simpa only [hm, Bool.false_eq_true, if_false] using h
      | true =>
        simp only [hm, if_true]
        exact linkExits_invStr translate skel msrv aid i e ce p.2 h

theorem linkFold_links (translate : Nat → TranslateResult) (skel : List SkelEntry)
    (msrv aid i : Nat) (e : JitBlockLinkData) (ce t : Nat)
    (hst : e.linkStatus = false) (hex : e.exitAddress = t)
    (hgb : ∀ s' : CacheState, skeleton s' = skel →
      ∃ p : Nat × JitBlock, GetBlockFromStartAddress translate s' t msrv = some p ∧
        p.2.checkedEntry = ce)
    (blk1 : JitBlock) (hblk1 : blk1.msrBits = msrv) (l : List (Nat × Nat)) :
    ∀ {s' : CacheState}, LinkInvGen skel msrv aid i e ce s' → (t, aid) ∈ l →
      LinkInvStr skel msrv aid i e ce
        (l.foldl (fun acc p =>
          match lookupBlock acc p.2 with
          | none => acc
          | some b2 =>
            if blk1.msrBits == b2.msrBits then LinkBlockExits translate acc p.2 else acc) s') := by
  induction l with
  | nil =>
    intro s' h hmem
    cases hmem
  | cons p rest ih =>
    intro s' h hmem
    rw [List.foldl_cons]
    rcases List.mem_cons.mp hmem with heq | hmem'
    · have hp2 : p.2 = aid := by rw [← heq]
      obtain ⟨hsk, A', hA, hAm, hdisj⟩ := h
      have hms : (blk1.msrBits == A'.msrBits) = true := by
        rw [hblk1, hAm]
        simp
      apply linkFold_invStr translate skel msrv aid i e ce blk1 rest
      simp only [hp2, hA, hms, if_true]
      exact linkExits_toStr translate skel msrv aid i e ce t hst hex hgb ⟨hsk, A', hA, hAm, hdisj⟩
    · apply ih ?_ hmem'
      cases hl : lookupBlock s' p.2 with
      | none => simpa only [hl] using h
      | some b2 =>
        simp only [hl]
        cases hm : blk1.msrBits == b2.msrBits with
        | false => simpa only [hm, Bool.false_eq_true, if_false] using h
        | true =>
          simp only [hm, if_true]
          exact linkExits_invGen translate skel msrv aid i e ce t hst hex hgb p.2 h

theorem linkBlock_links_inbound (translate : Nat → TranslateResult) (s5 : CacheState)
    (skel : List SkelEntry) (msrv aid bid i t : Nat) (e : JitBlockLinkData) (ce : Nat)
    (B1 : JitBlock)
    (hst : e.linkStatus = false) (hex : e.exitAddress = t)
    (hgb : ∀ s'' : CacheState, skeleton s'' = skel →
      ∃ p : Nat × JitBlock, GetBlockFromStartAddress translate s'' t msrv = some p ∧
        p.2.checkedEntry = ce)
    (hInv : LinkInvGen skel msrv aid i e ce s5)
    (hlkB : lookupBlock s5 bid = some B1)
    (hB1eff : B1.effectiveAddress = t)
    (hB1msr : B1.msrBits = msrv)
    (hmem : (t, aid) ∈ s5.links_to) :
    LinkInvStr skel msrv aid i e ce (LinkBlock translate s5 bid) := by
  unfold LinkBlock
  have hInv1 := linkExits_invGen translate skel msrv aid i e ce t hst hex hgb bid hInv
  have hlkb1 := linkBlockExits_lookup_self translate s5 bid B1 hlkB
  simp only [hlkb1]
  apply linkFold_links translate skel msrv aid i e ce t hst hex hgb _ hB1msr _ hInv1
  apply List.mem_filter.mpr
  constructor
  · rw [(linkFrame_linkBlockExits translate s5 bid).1]
    exact hmem
  · show (t == B1.effectiveAddress) = true
    rw [hB1eff]
    simp

theorem validSet_block_map (s : CacheState) (i : Nat) : (validSet s i).block_map = s.block_map := by
  unfold validSet
  split <;> rfl

theorem setValidRange_block_map (s : CacheState) (lo hi : Nat) :
    (setValidRange s lo hi).block_map = s.block_map := by
  unfold setValidRange
  exact foldl_preserveP (fun t => t.block_map = s.block_map) (fun acc k => validSet acc (lo + k))
    (List.range (hi + 1 - lo)) s (fun a k h => (validSet_block_map a (lo + k)).trans h) rfl

theorem rangeInsertSpan_block_map (s : CacheState) (a b c : Nat) :
    (rangeInsertSpan s a b c).block_map = s.block_map := by
  simp only [rangeInsertSpan]
  split <;> rfl

theorem lookupBlock_bm {s1 s2 : CacheState} (h : s1.block_map = s2.block_map) (j : Nat) :
    lookupBlock s1 j = lookupBlock s2 j := by
  unfold lookupBlock
  rw [h]

theorem skeleton_bm {s1 s2 : CacheState} (h : s1.block_map = s2.block_map) :
    skeleton s1 = skeleton s2 := by
  unfold skeleton
  rw [h]

/-- C8: if block A is registered in the link graph with an unresolved exit
e targeting t, and a block B with effectiveAddress t and A's msrBits — the
registry's match for (t, A.msrBits) — is then published by Finalize with
link=true, then afterwards A's entry e has link_status true and its patch
site records B's checkedEntry. -/
theorem c8_finalize_links_inbound (translate : Nat → TranslateResult) (s : CacheState)
    (aid bid t i : Nat) (A B : JitBlock) (e : JitBlockLinkData)
    (hne : aid ≠ bid)
    (hA : lookupBlock s aid = some A)
    (hB : lookupBlock s bid = some B)
    (he : A.linkData.get? i = some e)
    (hst : e.linkStatus = false)
    (hex : e.exitAddress = t)
    (hreg : (t, aid) ∈ s.links_to)
    (hBeff : B.effectiveAddress = t)
    (hBmsr : B.msrBits = A.msrBits)
    (hfind : GetBlockFromStartAddress translate s t A.msrBits = some (bid, B)) :
    ∃ A', lookupBlock (FinalizeBlock translate s bid true) aid = some A' ∧
      A'.linkData.get? i = some (linkedE e B.checkedEntry) := by
  unfold FinalizeBlock
  simp only [hB]
  simp only [if_true]
  set idx0 := FastLookupIndexForAddress B.effectiveAddress with hidx0
  set Z1 := fastSet s idx0 (some bid) with hZ1
  set f1 := (fun b : JitBlock => { b with fast_block_map_index := idx0 }) with hf1
  set Z2 := updateBlock Z1 bid f1 with hZ2
  set bs := B.physicalAddress with hbs
  set be := uadd bs (umul (usub B.originalSize 1) 4) with hbe
  set Z3 := setValidRange Z2 (bs / 32) (be / 32) with hZ3
  set Z4 := rangeInsertSpan Z3 bs be bid with hZ4
  set Z5 := ({ Z4 with
    links_to := Z4.links_to ++ B.linkData.map (fun le => (le.exitAddress, bid)) } : CacheState)
    with hZ5
  have e2 : lookupBlock Z4 aid = lookupBlock Z3 aid :=
    lookupBlock_bm (rangeInsertSpan_block_map Z3 bs be bid) aid
  have e3 : lookupBlock Z3 aid = lookupBlock Z2 aid :=
    lookupBlock_bm (setValidRange_block_map Z2 (bs / 32) (be / 32)) aid
  have e4 : lookupBlock Z2 aid = lookupBlock Z1 aid := by
    rw [hZ2, lookupBlock_updateBlock, if_neg hne]
  have hlkZ5 : lookupBlock Z5 aid = some A := e2.trans (e3.trans (e4.trans hA))
  have hskZ5 : skeleton Z5 = skeleton s := by
    have k2 : skeleton Z4 = skeleton Z3 := skeleton_bm (rangeInsertSpan_block_map Z3 bs be bid)
    have k3 : skeleton Z3 = skeleton Z2 := skeleton_bm (setValidRange_block_map Z2 _ _)
    have k4 : skeleton Z2 = skeleton Z1 := skeleton_updateBlock Z1 bid f1 (fun b => rfl)
    exact k2.trans (k3.trans k4)
  have hlkB5 : lookupBlock Z5 bid = some (f1 B) := by
    have k2 : lookupBlock Z4 bid = lookupBlock Z3 bid :=
      lookupBlock_bm (rangeInsertSpan_block_map Z3 bs be bid) bid
    have k3 : lookupBlock Z3 bid = lookupBlock Z2 bid :=
      lookupBlock_bm (setValidRange_block_map Z2 (bs / 32) (be / 32)) bid
    have k4 : lookupBlock Z2 bid = (lookupBlock Z1 bid).map f1 := by
      rw [hZ2, lookupBlock_updateBlock, if_pos rfl]
    have k5 : (lookupBlock Z1 bid).map f1 = some (f1 B) := by
      show (lookupBlock s bid).map f1 = some (f1 B)
      rw [hB]
      rfl
    exact k2.trans (k3.trans (k4.trans k5))
  have hmem5 : (t, aid) ∈ Z5.links_to := by
    show (t, aid) ∈ Z4.links_to ++ B.linkData.map (fun le => (le.exitAddress, bid))
    apply List.mem_append.mpr
    left
    have l2 : Z4.links_to = Z3.links_to := rangeInsertSpan_links Z3 bs be bid
    have l3 : Z3.links_to = Z2.links_to := setValidRange_links Z2 (bs / 32) (be / 32)
    rw [l2, l3]
    exact hreg
  have hgb : ∀ s'' : CacheState, skeleton s'' = skeleton s →
      ∃ p : Nat × JitBlock, GetBlockFromStartAddress translate s'' t A.msrBits = some p ∧
        p.2.checkedEntry = B.checkedEntry := fun s'' hsk'' =>
    gbsa_ce_of_skeleton_eq translate hsk'' t A.msrBits bid B hfind
  have hInv5 : LinkInvGen (skeleton s) A.msrBits aid i e B.checkedEntry Z5 :=
    ⟨hskZ5, A, hlkZ5, rfl, Or.inl he⟩
  have hstr := linkBlock_links_inbound translate Z5 (skeleton s) A.msrBits aid bid i t e
    B.checkedEntry (f1 B) hst hex hgb hInv5 hlkB5 hBeff hBmsr hmem5
  obtain ⟨_, A', hA', _, hent⟩ := hstr
  exact ⟨A', hA', hent⟩

/-- C8 witness: the theorem applied to the concrete two-block scenario of
spec §8 (5): after B's finalisation with link=true, A's exit is patched to
B's checkedEntry. -/
theorem c8_witness :
    ∃ A', lookupBlock (FinalizeBlock idTranslate c8State 1 true) 0 = some A' ∧
      A'.linkData.get? 0 = some (linkedE c8e 0x600) :=
  c8_finalize_links_inbound idTranslate c8State 0 1 0x2000 0 c8A c8B c8e
    (by decide) (by decide) (by decide) (by decide) (by decide) (by decide)
    (by decide) (by decide) (by decide) (by decide)
